import Mathlib

/-!
# Issue commands of the GitHub CLI: selector resolution, create and close workflows

A shallow embedding of `command/issue.go` (`issueFromArg`, `issueCreate`,
`labelList`) and `pkg/cmd/issue/close/close.go` (`closeRun`, `apiClose`).

Conventions of the embedding.

* A Go `string` is a Lean `String`, that is a valid UTF-8 text; where the Go code
  works on bytes (`strconv.Atoi`, `url.QueryEscape`) the embedding works on the
  UTF-8 encoding of the text, a `List Nat` of values below 256.
* Go's `int` is an `Int` together with the platform's width (`IntSize`); the
  only place where the width matters is the range check of `strconv.Atoi`.
* Collaborators (transport, prompt, browser, recency store, flags) are fields of
  an environment record; a run returns the list of collaborator calls it made,
  in order, together with its result.
-/

namespace GhIssue

/-! ## Go strings as bytes -/

/-- UTF-8 encoding of one code point, as Go stores it in a `string`. -/
def utf8Bytes (c : Char) : List Nat :=
  let v := c.toNat
  if v < 0x80 then [v]
  else if v < 0x800 then [0xC0 + v / 0x40, 0x80 + v % 0x40]
  else if v < 0x10000 then [0xE0 + v / 0x1000, 0x80 + (v / 0x40) % 0x40, 0x80 + v % 0x40]
  else [0xF0 + v / 0x40000, 0x80 + (v / 0x1000) % 0x40, 0x80 + (v / 0x40) % 0x40, 0x80 + v % 0x40]

/-- The bytes of a Go string: `[]byte(s)`. -/
def bytes (s : String) : List Nat :=
  s.data.flatMap utf8Bytes

/-! ## `strconv.Atoi` -/

/-- Width of Go's `int` on the platform: `strconv.IntSize`. -/
inductive IntSize where
  | w32
  | w64
  deriving DecidableEq, Repr

/-- Number of bits of `int`. -/
def IntSize.bits : IntSize → Nat
  | .w32 => 32
  | .w64 => 64

/-- The two sentinel errors of `strconv`: `ErrSyntax` and `ErrRange`. -/
inductive NumError where
  | ErrSyntax
  | ErrRange
  deriving DecidableEq, Repr

/-- The digit loop of `strconv.ParseUint(s, 10, bitSize)`: the accumulator `n`
is a `uint64`; the value returned next to an error is `0` for a malformed
digit and `maxVal` for an overflow. -/
def parseUintLoop (maxVal : Nat) : List Nat → Nat → Nat × Option NumError
  | [], n => (n, none)
  | c :: cs, n =>
    if 48 ≤ c ∧ c ≤ 57 then
      let d := c - 48
      if n ≥ (2 ^ 64 - 1) / 10 + 1 then (maxVal, some .ErrRange)
      else
        let n10 := (n * 10) % 2 ^ 64
        let n1 := (n10 + d) % 2 ^ 64
        if n1 < n10 ∨ n1 > maxVal then (maxVal, some .ErrRange)
        else parseUintLoop maxVal cs n1
    else (0, some .ErrSyntax)

/-- Base 10 `strconv.ParseUint(s, 10, 0)`: the empty string is a syntax error. -/
def ParseUint (w : IntSize) (s : List Nat) : Nat × Option NumError :=
  if s = [] then (0, some .ErrSyntax)
  else parseUintLoop (2 ^ w.bits - 1) s 0

/-- Base 10 `strconv.ParseInt(s, 10, 0)`: an optional sign, then `ParseUint`,
then the range check against `1 << (bitSize-1)`. -/
def ParseInt (w : IntSize) (s : List Nat) : Int × Option NumError :=
  match s with
  | [] => (0, some .ErrSyntax)
  | c :: cs =>
    let neg := decide (c = 45)
    let s1 := if c = 43 then cs else if c = 45 then cs else c :: cs
    let r := ParseUint w s1
    if r.2 = some .ErrSyntax then (0, some .ErrSyntax)
    else
      let un := r.1
      let cutoff := 2 ^ (w.bits - 1)
      if neg = false ∧ un ≥ cutoff then (((cutoff - 1 : Nat) : Int), some .ErrRange)
      else if neg = true ∧ un > cutoff then (-((cutoff : Nat) : Int), some .ErrRange)
      else if neg = true then (-((un : Nat) : Int), none) else (((un : Nat) : Int), none)

/-- Conversion to Go's `int`: the value modulo `2 ^ bits`, as a signed number. -/
def wrapInt (w : IntSize) (x : Int) : Int :=
  (x + 2 ^ (w.bits - 1)) % 2 ^ w.bits - 2 ^ (w.bits - 1)

/-- The digit loop of the fast path of `strconv.Atoi`: `ch -= '0'` is a byte
subtraction, so a byte below `'0'` wraps around to a value above 9; `n` is an
`int`. -/
def atoiFastLoop (w : IntSize) : List Nat → Int → Option Int
  | [], n => some n
  | c :: cs, n =>
    let ch := (c + 256 - 48) % 256
    if ch > 9 then none else atoiFastLoop w cs (wrapInt w (n * 10 + (ch : Int)))

/-- The function `strconv.Atoi`: a fast path for strings short enough to fit `int`
(fewer than 10 bytes on 32 bits, fewer than 19 on 64 bits), `ParseInt`
otherwise. The result is the pair Go returns: the number and the error. -/
def Atoi (w : IntSize) (s : String) : Int × Option NumError :=
  let b := bytes s
  let sLen := b.length
  if 0 < sLen ∧ sLen < (match w with | .w32 => 10 | .w64 => 19) then
    match b with
    | [] => (0, some .ErrSyntax)
    | c :: cs =>
      let s1 := if c = 45 ∨ c = 43 then cs else c :: cs
      if s1.length < 1 then (0, some .ErrSyntax)
      else
        match atoiFastLoop w s1 0 with
        | none => (0, some .ErrSyntax)
        | some n => if c = 45 then (wrapInt w (-n), none) else (n, none)
  else ParseInt w b

/-! ## `fmt`'s `%q`: `strconv.Quote` -/

/-- The part of the Go runtime the commands depend on and the sources do not
fix: the width of `int`, and the Unicode table behind `strconv.IsPrint` for
code points above Latin-1. -/
structure GoRuntime where
  intSize : IntSize
  isPrintTable : Char → Bool

/-- The function `strconv.IsPrint`: Latin-1 is decided in code, the rest by table. -/
def IsPrint (rt : GoRuntime) (r : Char) : Bool :=
  let v := r.toNat
  if v ≤ 0xFF then
    if 0x20 ≤ v ∧ v ≤ 0x7E then true
    else if 0xA1 ≤ v ∧ v ≤ 0xFF then v != 0xAD
    else false
  else rt.isPrintTable r

/-- One digit of `lowerhex`. -/
def lowerhex (n : Nat) : Char :=
  "0123456789abcdef".data.getD (n % 16) '0'

/-- The function `strconv.appendEscapedRune` for the double quote, neither ASCII-only
nor graphic-only. -/
def appendEscapedRune (rt : GoRuntime) (r : Char) : List Char :=
  if r = '"' ∨ r = '\\' then ['\\', r]
  else if IsPrint rt r then [r]
  else if r.toNat = 7 then ['\\', 'a']
  else if r.toNat = 8 then ['\\', 'b']
  else if r.toNat = 12 then ['\\', 'f']
  else if r = '\n' then ['\\', 'n']
  else if r = '\r' then ['\\', 'r']
  else if r = '\t' then ['\\', 't']
  else if r.toNat = 11 then ['\\', 'v']
  else if r.toNat < 0x20 ∨ r.toNat = 0x7F then
    ['\\', 'x', lowerhex (r.toNat / 16), lowerhex r.toNat]
  else if r.toNat < 0x10000 then
    ['\\', 'u', lowerhex (r.toNat / 4096), lowerhex (r.toNat / 256),
      lowerhex (r.toNat / 16), lowerhex r.toNat]
  else
    ['\\', 'U', lowerhex (r.toNat / 268435456), lowerhex (r.toNat / 16777216),
      lowerhex (r.toNat / 1048576), lowerhex (r.toNat / 65536),
      lowerhex (r.toNat / 4096), lowerhex (r.toNat / 256),
      lowerhex (r.toNat / 16), lowerhex r.toNat]

/-- The function `strconv.Quote`, which `fmt` applies for the verb `%q` without flags:
the text between double quotes, every rune escaped by `appendEscapedRune`. -/
def Quote (rt : GoRuntime) (s : String) : String :=
  String.mk ('"' :: (s.data.flatMap (appendEscapedRune rt) ++ ['"']))

/-! ## The issue URL pattern -/

/-- Removes a literal prefix, or fails. -/
def stripPrefix : List Char → List Char → Option (List Char)
  | [], s => some s
  | _ :: _, [] => none
  | p :: ps, c :: cs => if p = c then stripPrefix ps cs else none

/-- The class `\d` of Go's `regexp`: the ten ASCII digits. -/
def isDigit (c : Char) : Bool :=
  decide (48 ≤ c.toNat ∧ c.toNat ≤ 57)

/-- The class `[^/]`. -/
def notSlash (c : Char) : Bool :=
  c != '/'

/-- What `FindStringSubmatch` returns for a pattern with three groups: the
whole match and the three submatches. -/
structure Submatch where
  m0 : String
  m1 : String
  m2 : String
  m3 : String
  deriving DecidableEq, Repr

/-- The call `issueURLRE.FindStringSubmatch(arg)` for
`^https://github\.com/([^/]+)/([^/]+)/issues/(\d+)`.
The pattern is anchored at the start and not at the end. A group `[^/]+` is
followed by a literal `/` that it cannot itself match, so it can only be the
whole run of characters up to the next `/`; the greedy `\d+` is last, so it is
the longest run of digits. -/
def FindStringSubmatch (arg : String) : Option Submatch :=
  match stripPrefix "https://github.com/".data arg.data with
  | none => none
  | some r1 =>
    let g1 := r1.takeWhile notSlash
    if g1 = [] then none
    else
      match stripPrefix ['/'] (r1.dropWhile notSlash) with
      | none => none
      | some r2 =>
        let g2 := r2.takeWhile notSlash
        if g2 = [] then none
        else
          match stripPrefix "/issues/".data (r2.dropWhile notSlash) with
          | none => none
          | some r3 =>
            let g3 := r3.takeWhile isDigit
            if g3 = [] then none
            else
              some {
                m0 := String.mk ("https://github.com/".data ++ g1 ++ ['/'] ++ g2
                        ++ "/issues/".data ++ g3)
                m1 := String.mk g1
                m2 := String.mk g2
                m3 := String.mk g3 }

/-! ## `command/issue.go` -/

/-- A Go `error`, identified with its message. -/
structure GoError where
  message : String
  deriving DecidableEq, Repr

/-- The interface `context.GitHubRepository`: `RepoOwner()` and `RepoName()`. -/
structure Repo where
  RepoOwner : String
  RepoName : String
  deriving DecidableEq, Repr

/-- One label node of an issue. -/
structure Label where
  Name : String
  deriving DecidableEq, Repr

/-- The field `Labels` of `api.Issue`: the returned nodes and the total count. -/
structure Labels where
  Nodes : List Label
  TotalCount : Int
  deriving DecidableEq, Repr

/-- The fields of `api.Issue` that `command/issue.go` reads. -/
structure Issue where
  Number : Int
  Title : String
  URL : String
  Body : String
  Labels : Labels
  deriving DecidableEq, Repr

/-- The streams a command writes to. -/
inductive Stream where
  | colorableErr
  | ErrOrStderr
  | OutOrStdout
  | cmdOut
  deriving DecidableEq, Repr

/-- Modelled from the spec: the type `Action` and its constants `SubmitAction`,
`PreviewAction`, `CancelAction` are declared in a file of the package that is
not part of the sources at hand; the spec gives the tag set {Submit, Preview,
Cancel}. `Action` is an integer type in Go, so any other value is kept as
`other`. -/
inductive Action where
  | SubmitAction
  | PreviewAction
  | CancelAction
  | other (v : Int)
  deriving DecidableEq, Repr

/-- Modelled from the spec: the draft `titleBody` returned by `titleBodySurvey`
(fields `Title`, `Body`, `Action`), declared outside the sources at hand. -/
structure TitleBody where
  Title : String
  Body : String
  Action : Action
  deriving DecidableEq, Repr

/-- The result of `api.GitHubRepo`, of which only `HasIssuesEnabled` is read;
`key` stands for the rest of the record. -/
structure Repository where
  key : Repo
  HasIssuesEnabled : Bool
  deriving DecidableEq, Repr

/-- A call to a collaborator made by a command of `command/issue.go`. -/
inductive Call where
  | IssueByNumber (repo : Repo) (number : Int)
  | GitHubRepo (repo : Repo)
  | titleBodySurvey (title body : String) (templateFiles : List String)
  | IssueCreate (repo : Repository) (title body : String)
  | OpenInBrowser (url : String)
  | Print (stream : Stream) (text : String)
  deriving DecidableEq, Repr

/-- The function `issueFromArg`. `IssueByNumber` is the transport call
`api.IssueByNumber(apiClient, ·, ·)`; the result is the calls made and the value
returned. -/
def issueFromArg (rt : GoRuntime) (IssueByNumber : Repo → Int → Except GoError Issue)
    (baseRepo : Repo) (arg : String) : List Call × Except GoError Issue :=
  let r := Atoi rt.intSize arg
  if r.2 = none then
    ([Call.IssueByNumber baseRepo r.1], IssueByNumber baseRepo r.1)
  else
    match FindStringSubmatch arg with
    | some m =>
      let issueNumber := (Atoi rt.intSize m.m3).1
      ([Call.IssueByNumber baseRepo issueNumber], IssueByNumber baseRepo issueNumber)
    | none => ([], Except.error ⟨"invalid issue format: " ++ Quote rt arg⟩)

/-- The function `labelList`. -/
def labelList (issue : Issue) : String :=
  if issue.Labels.Nodes.length = 0 then ""
  else
    let labelNames := issue.Labels.Nodes.map (fun label => label.Name)
    let list := ", ".intercalate labelNames
    if issue.Labels.TotalCount > (issue.Labels.Nodes.length : Int) then list ++ ", …"
    else list

/-! ## `net/url`: `QueryEscape` and `Parse` -/

/-- One digit of `upperhex`. -/
def upperhex (n : Nat) : Char :=
  "0123456789ABCDEF".data.getD (n % 16) '0'

/-- The function `shouldEscape(c, encodeQueryComponent)` of `net/url`: only letters,
digits and `-`, `_`, `.`, `~` are kept. -/
def shouldEscape (c : Nat) : Bool :=
  if (97 ≤ c ∧ c ≤ 122) ∨ (65 ≤ c ∧ c ≤ 90) ∨ (48 ≤ c ∧ c ≤ 57) then false
  else if c = 45 ∨ c = 95 ∨ c = 46 ∨ c = 126 then false
  else true

/-- The function `url.QueryEscape`, byte by byte: a space becomes `+`, a byte that
must be escaped becomes `%XX`. -/
def QueryEscape (s : String) : String :=
  String.mk ((bytes s).flatMap (fun c =>
    if c = 32 then ['+']
    else if shouldEscape c then ['%', upperhex (c / 16), upperhex c]
    else [Char.ofNat c]))

/-- The function `stringContainsCTLByte` of `net/url`. -/
def stringContainsCTLByte (s : String) : Bool :=
  (bytes s).any (fun b => decide (b < 32 ∨ b = 127))

/-- The fields of `url.URL` that matter to `issueCreate`: it prints `Host` and
`Path`; `RawQuery` is where the parameters of the URL are. -/
structure URL where
  Host : String
  Path : String
  RawQuery : String
  deriving DecidableEq, Repr

/-- An ASCII letter. -/
def isLetter (c : Char) : Bool :=
  decide ((97 ≤ c.toNat ∧ c.toNat ≤ 122) ∨ (65 ≤ c.toNat ∧ c.toNat ≤ 90))

/-- The loop of `getscheme` of `net/url`: `acc` is the text read so far, `rawurl`
the whole text. A letter goes on; a digit, `+`, `-` or `.` goes on unless it is
first; a `:` ends the scheme, and is an error when it is first; anything else
means there is no scheme. -/
def getschemeLoop (rawurl : List Char) : List Char → List Char →
    Except GoError (List Char × List Char)
  | _, [] => .ok ([], rawurl)
  | acc, c :: cs =>
    if isLetter c then getschemeLoop rawurl (acc ++ [c]) cs
    else if isDigit c ∨ c = '+' ∨ c = '-' ∨ c = '.' then
      if acc = [] then .ok ([], rawurl) else getschemeLoop rawurl (acc ++ [c]) cs
    else if c = ':' then
      if acc = [] then .error ⟨"missing protocol scheme"⟩ else .ok (acc, cs)
    else .ok ([], rawurl)

/-- The function `getscheme` of `net/url`: the scheme and what follows its colon. -/
def getscheme (rawurl : List Char) : Except GoError (List Char × List Char) :=
  getschemeLoop rawurl [] rawurl

/-- A host that `parseHost` of `net/url` returns as it is: letters, digits, `-`,
`.`, `_` and `~` only, so no user, no port, no bracket and no escape. -/
def plainHost (authority : List Char) : Bool :=
  authority.all (fun c =>
    isLetter c || isDigit c || c == '-' || c == '.' || c == '_' || c == '~')

/-- The function `url.Parse` as far as the sources at hand depend on it, in the
order of `net/url`. The fragment is cut at the first `#`. The text before it is
refused when it holds an ASCII control byte. `getscheme` takes the scheme. The
query is cut at the first `?`. When there is a scheme, no fragment, and the rest
starts with `//`, the authority runs up to the next `/` and the path is what
follows; for a plain host and a path without `%` nothing needs unescaping, and
the URL has that host, that path and that query. What the parser does with any
other text is left to `parseRest`. -/
def urlParse (rt : GoRuntime) (parseRest : String → Except GoError URL) (rawurl : String) :
    Except GoError URL :=
  let u := rawurl.data.takeWhile (fun c => c != '#')
  let frag := (rawurl.data.dropWhile (fun c => c != '#')).drop 1
  if stringContainsCTLByte (String.mk u) then
    Except.error
      ⟨"parse " ++ Quote rt (String.mk u) ++ ": net/url: invalid control character in URL"⟩
  else
    match getscheme u with
    | .error err => Except.error ⟨"parse " ++ Quote rt (String.mk u) ++ ": " ++ err.message⟩
    | .ok (scheme, rest) =>
      let beforeQuery := rest.takeWhile (fun c => c != '?')
      let rawQuery := (rest.dropWhile (fun c => c != '?')).drop 1
      if scheme ≠ [] ∧ frag = [] ∧ beforeQuery.take 2 = ['/', '/'] then
        let authority := (beforeQuery.drop 2).takeWhile (fun c => c != '/')
        let path := (beforeQuery.drop 2).dropWhile (fun c => c != '/')
        if plainHost authority = true ∧ '%' ∉ path then
          .ok ⟨String.mk authority, String.mk path, String.mk rawQuery⟩
        else parseRest rawurl
      else parseRest rawurl

/-! ## `issueCreate` -/

/-- How a command ends: `nil`, an error, or a panic. -/
inductive Outcome where
  | ok
  | error (err : GoError)
  | panic (msg : String)
  deriving DecidableEq, Repr

/-- The function `errors.Wrap(err, msg)`. -/
def Wrap (err : GoError) (msg : String) : GoError :=
  ⟨msg ++ ": " ++ err.message⟩

/-- The collaborators of `issueCreate`, each with the result it gives in the
invocation at hand. -/
structure CreateEnv where
  /-- The call `ctx.BaseRepo()`. -/
  BaseRepo : Except GoError Repo
  /-- The call `git.ToplevelDir()`. -/
  ToplevelDir : Except GoError String
  /-- The call `githubtemplate.Find(rootDir, name)`. -/
  Find : String → String → List String
  /-- The call `cmd.Flags().GetBool("web")`. -/
  web : Except GoError Bool
  /-- The call `apiClientForContext(ctx)`. -/
  apiClientForContext : Except GoError Unit
  /-- The call `api.GitHubRepo(apiClient, baseRepo)`. -/
  GitHubRepo : Repo → Except GoError Repository
  /-- The flag `title` on the command line: `none` when it is not given, the value
  when it is, an error when the flag cannot be looked up. -/
  title : Except GoError (Option String)
  /-- The flag `body` on the command line, likewise. -/
  body : Except GoError (Option String)
  /-- The call `titleBodySurvey(cmd, title, body, templateFiles)`. -/
  titleBodySurvey : String → String → List String → Except GoError TitleBody
  /-- What `url.Parse` does with a text outside the part that `urlParse` spells out. -/
  parseRest : String → Except GoError URL
  /-- The call `utils.OpenInBrowser(url)`: `none` is `nil`. -/
  OpenInBrowser : String → Option GoError
  /-- The call `api.IssueCreate(apiClient, repo, params)` with `params` holding
  `title` and `body`. -/
  IssueCreate : Repository → String → String → Except GoError Issue

/-- The call `cmd.Flags().GetString(name)` for a flag registered by `StringP` with
the default `""` (lines 28-31): the value given, the default when none is. -/
def GetString (flag : Except GoError (Option String)) : Except GoError String :=
  match flag with
  | .error err => .error err
  | .ok none => .ok ""
  | .ok (some value) => .ok value

/-- Turns the `error` a call returned into the outcome of the command. -/
def Outcome.ofError : Option GoError → Outcome
  | none => Outcome.ok
  | some err => Outcome.error err

/-- Lines 284-288 of `issueCreate`: the templates found under the top-level
directory, none when the directory is not known. -/
def templateFiles (env : CreateEnv) : List String :=
  match env.ToplevelDir with
  | .ok rootDir => env.Find rootDir "ISSUE_TEMPLATE"
  | .error _ => []

/-- The function `issueCreate`: the calls made, in order, and the outcome. -/
def issueCreate (rt : GoRuntime) (env : CreateEnv) : List Call × Outcome :=
  match env.BaseRepo with
  | .error err => ([], .error err)
  | .ok baseRepo =>
    let log0 := [Call.Print .colorableErr
      ("\nCreating issue in " ++ baseRepo.RepoOwner ++ "/" ++ baseRepo.RepoName ++ "\n\n")]
    let templateFiles : List String := templateFiles env
    match env.web with
    | .ok true =>
      let openURL := "https://github.com/" ++ baseRepo.RepoOwner ++ "/" ++ baseRepo.RepoName
        ++ "/issues/new"
      let openURL := if templateFiles.length > 1 then openURL ++ "/choose" else openURL
      (log0 ++ [Call.Print .cmdOut ("Opening " ++ openURL ++ " in your browser.\n"),
                Call.OpenInBrowser openURL],
        Outcome.ofError (env.OpenInBrowser openURL))
    | _ =>
      match env.apiClientForContext with
      | .error err => (log0, .error err)
      | .ok _ =>
        let log1 := log0 ++ [Call.GitHubRepo baseRepo]
        match env.GitHubRepo baseRepo with
        | .error err => (log1, .error err)
        | .ok repo =>
          if !repo.HasIssuesEnabled then
            (log1, .error ⟨"the '" ++ baseRepo.RepoOwner ++ "/" ++ baseRepo.RepoName
              ++ "' repository has disabled issues"⟩)
          else
            match GetString env.title with
            | .error err => (log1, .error (Wrap err "could not parse title"))
            | .ok title =>
              match GetString env.body with
              | .error err => (log1, .error (Wrap err "could not parse body"))
              | .ok body =>
                let interactive := title == "" || body == ""
                -- lines 326-346: `Except.error` is an early return
                let collected : Except (List Call × Outcome)
                    (Action × String × String × List Call) :=
                  if interactive then
                    let log2 := log1 ++ [Call.titleBodySurvey title body templateFiles]
                    match env.titleBodySurvey title body templateFiles with
                    | .error err =>
                      .error (log2, .error (Wrap err "could not collect title and/or body"))
                    | .ok tb =>
                      if tb.Action = Action.CancelAction then
                        .error (log2 ++ [Call.Print .ErrOrStderr "Discarding.\n"], .ok)
                      else
                        .ok (tb.Action,
                          (if title == "" then tb.Title else title),
                          (if body == "" then tb.Body else body), log2)
                  else .ok (Action.SubmitAction, title, body, log1)
                match collected with
                | .error r => r
                | .ok (action, title, body, log3) =>
                  if action = Action.PreviewAction then
                    let openURL := "https://github.com/" ++ baseRepo.RepoOwner ++ "/"
                      ++ baseRepo.RepoName ++ "/issues/new/?title=" ++ QueryEscape title
                      ++ "&body=" ++ QueryEscape body
                    match urlParse rt env.parseRest openURL with
                    | .error err => (log3, .error err)
                    | .ok url =>
                      (log3 ++ [Call.Print .ErrOrStderr
                          ("Opening " ++ url.Host ++ url.Path ++ " in your browser.\n"),
                        Call.OpenInBrowser openURL],
                        Outcome.ofError (env.OpenInBrowser openURL))
                  else if action = Action.SubmitAction then
                    let log4 := log3 ++ [Call.IssueCreate repo title body]
                    match env.IssueCreate repo title body with
                    | .error err => (log4, .error err)
                    | .ok newIssue =>
                      (log4 ++ [Call.Print .OutOrStdout (newIssue.URL ++ "\n")], .ok)
                  else (log3, .panic "Unreachable state")

/-! ## `pkg/cmd/issue/close/close.go` -/

namespace Close

/-- The interface `ghrepo.Interface`: `RepoOwner()`, `RepoName()`, `RepoHost()`. -/
structure Repo where
  RepoOwner : String
  RepoName : String
  RepoHost : String
  deriving DecidableEq, Repr

/-- The fields of `api.Issue` that `close.go` reads. -/
structure Issue where
  ID : String
  Number : Int
  Title : String
  State : String
  /-- Modelled from the spec: the method `IsPullRequest()` of `api.Issue` is
  declared outside the sources at hand; the spec gives every record a kind flag
  that tells a pull request from an issue. -/
  IsPullRequest : Bool
  deriving DecidableEq, Repr

/-- A call to a collaborator made by `closeRun` or `apiClose`. -/
inductive Call where
  | StartProgressIndicator
  | StopProgressIndicator
  | GetFrecent (repo : Repo) (isPR : Bool)
  | SelectIssueNumber (issues : List Issue)
  | IssueFromArgWithFields (selector : String) (fields : List String)
  | PullRequestClose (repo : Repo) (id : String)
  | IssueClose (host : String) (issueID : String)
  | DeleteByNumber (repo : Repo) (isPR : Bool) (number : Int)
  | ErrOut (text : String)
  deriving DecidableEq, Repr

/-- The fields of `CloseOptions` that are plain data. -/
structure CloseOptions where
  SelectorArg : String
  UseFrecency : Bool
  deriving DecidableEq, Repr

/-- The collaborators of `closeRun`, each with the result it gives in the
invocation at hand. -/
structure CloseEnv where
  /-- The call `opts.HttpClient()`. -/
  HttpClient : Except GoError Unit
  /-- The call `opts.BaseRepo()`. -/
  BaseRepo : Except GoError Repo
  /-- The call `opts.Frecency.GetFrecent(repo, isPR)`. -/
  GetFrecent : Repo → Bool → Except GoError (List Issue)
  /-- The call `shared.SelectIssueNumber(issues)`. -/
  SelectIssueNumber : List Issue → Except GoError String
  /-- The call `shared.IssueFromArgWithFields(httpClient, opts.BaseRepo, selector, fields)`. -/
  IssueFromArgWithFields : String → List String → Except GoError (Issue × Repo)
  /-- The call `api.PullRequestClose(httpClient, repo, id)`: `none` is `nil`. -/
  PullRequestClose : Repo → String → Option GoError
  /-- The mutation `IssueClose` sent by `gql.MutateNamed` to the GraphQL endpoint
  of a host, with `CloseIssueInput{IssueID: id}`. -/
  IssueClose : String → String → Option GoError
  /-- The call `opts.Frecency.DeleteByNumber(repo, isPR, number)`. -/
  DeleteByNumber : Repo → Bool → Int → Option GoError
  /-- The call `cs.Yellow(text)`. -/
  Yellow : String → String
  /-- The value `cs.SuccessIconWithColor(cs.Red)`. -/
  SuccessIconRed : String

/-- The function `apiClose`: the mutation sent and the error returned. -/
def apiClose (env : CloseEnv) (repo : Repo) (issue : Issue) : List Call × Option GoError :=
  if issue.IsPullRequest then
    ([Call.PullRequestClose repo issue.ID], env.PullRequestClose repo issue.ID)
  else
    ([Call.IssueClose repo.RepoHost issue.ID], env.IssueClose repo.RepoHost issue.ID)

/-- The function `closeRun`: the calls made, in order, and the error returned. -/
def closeRun (env : CloseEnv) (opts : CloseOptions) : List Call × Option GoError :=
  match env.HttpClient with
  | .error err => ([], some err)
  | .ok _ =>
    match env.BaseRepo with
    | .error err => ([], some err)
    | .ok baseRepo =>
      -- lines 82-95: `Except.error` is an early return
      let selected : Except (List Call × Option GoError) (String × List Call) :=
        if opts.UseFrecency then
          let log1 := [Call.StartProgressIndicator, Call.GetFrecent baseRepo false]
          match env.GetFrecent baseRepo false with
          | .error err => .error (log1, some err)
          | .ok issues =>
            let log2 := log1 ++ [Call.StopProgressIndicator, Call.SelectIssueNumber issues]
            match env.SelectIssueNumber issues with
            | .error err => .error (log2, some err)
            | .ok selected => .ok (selected, log2)
        else .ok (opts.SelectorArg, [])
      match selected with
      | .error r => r
      | .ok (selectorArg, log2) =>
        let fields := ["id", "number", "title", "state"]
        let log3 := log2 ++ [Call.IssueFromArgWithFields selectorArg fields]
        match env.IssueFromArgWithFields selectorArg fields with
        | .error err => (log3, some err)
        | .ok (issue, baseRepo) =>
          if issue.State = "CLOSED" then
            (log3 ++ [Call.ErrOut (env.Yellow "!" ++ " Issue #" ++ toString issue.Number
              ++ " (" ++ issue.Title ++ ") is already closed\n")], none)
          else
            let closed := apiClose env baseRepo issue
            let log4 := log3 ++ closed.1
            match closed.2 with
            | some err => (log4, some err)
            | none =>
              let log5 := log4 ++ [Call.DeleteByNumber baseRepo false issue.Number]
              match env.DeleteByNumber baseRepo false issue.Number with
              | some err => (log5, some err)
              | none =>
                (log5 ++ [Call.ErrOut (env.SuccessIconRed ++ " Closed issue #"
                  ++ toString issue.Number ++ " (" ++ issue.Title ++ ")\n")], none)

/-- The two close mutations: `api.PullRequestClose` and the mutation `IssueClose`. -/
def Call.isMutation : Call → Bool
  | .PullRequestClose _ _ => true
  | .IssueClose _ _ => true
  | _ => false

/-- The deletion from the recency store. -/
def Call.isDeletion : Call → Bool
  | .DeleteByNumber _ _ _ => true
  | _ => false

/-- A line written to `opts.IO.ErrOut`. -/
def Call.isErrOut : Call → Bool
  | .ErrOut _ => true
  | _ => false

/-- In the run of `closeRun` the resolver was called, and it returned the record
`issue` together with the repository `repo`. -/
def ResolvedTo (env : CloseEnv) (opts : CloseOptions) (issue : Issue) (repo : Repo) : Prop :=
  ∃ selector fields,
    Call.IssueFromArgWithFields selector fields ∈ (closeRun env opts).1 ∧
    env.IssueFromArgWithFields selector fields = .ok (issue, repo)

/-- The notice `closeRun` prints for a record that is closed already. -/
def alreadyClosedNotice (env : CloseEnv) (issue : Issue) : Call :=
  Call.ErrOut (env.Yellow "!" ++ " Issue #" ++ toString issue.Number
    ++ " (" ++ issue.Title ++ ") is already closed\n")

/-- An environment in which the selector `7` resolves to an open issue. -/
def sampleEnv : CloseEnv where
  HttpClient := .ok ()
  BaseRepo := .ok ⟨"acme", "widgets", "github.com"⟩
  GetFrecent := fun _ _ => .ok []
  SelectIssueNumber := fun _ => .ok "7"
  IssueFromArgWithFields := fun s _ =>
    .ok (⟨"I_" ++ s, 7, "crash", "OPEN", false⟩, ⟨"acme", "widgets", "github.com"⟩)
  PullRequestClose := fun _ _ => none
  IssueClose := fun _ _ => none
  DeleteByNumber := fun _ _ _ => none
  Yellow := fun s => s
  SuccessIconRed := "✓"

/-- The environment `sampleEnv` with the issue closed already. -/
def closedEnv : CloseEnv :=
  { sampleEnv with
    IssueFromArgWithFields := fun s _ =>
      .ok (⟨"I_" ++ s, 7, "crash", "CLOSED", false⟩, ⟨"acme", "widgets", "github.com"⟩) }

/-- The environment `sampleEnv` with a transport that refuses the mutation
`IssueClose`. -/
def failingEnv : CloseEnv :=
  { sampleEnv with IssueClose := fun _ _ => some ⟨"transport: connection refused"⟩ }

/-- The environment `sampleEnv` with a recency store that fails to delete. -/
def staleEnv : CloseEnv :=
  { sampleEnv with DeleteByNumber := fun _ _ _ => some ⟨"recency store is read-only"⟩ }

end Close

/-! ## Vocabulary of the properties of `command/issue.go` -/

/-- The bytes of a list of code points. -/
def bytesOf (cs : List Char) : List Nat :=
  cs.flatMap utf8Bytes

/-- The base-10 value of a string of digits read after the value `n`. -/
def valueFrom (n : Nat) (cs : List Char) : Nat :=
  cs.foldl (fun a c => a * 10 + (c.toNat - 48)) n

/-- Membership of all characters in the class of digits. -/
def allDigits (cs : List Char) : Bool :=
  cs.all isDigit

/-- The number denoted by the digits `ds` under the sign `neg`, when `ds` is a
non-empty string of digits and the number fits Go's `int`. -/
def litValue (w : IntSize) (neg : Bool) (ds : List Char) : Option Int :=
  if ds ≠ [] ∧ allDigits ds = true then
    if neg = true then
      if valueFrom 0 ds ≤ 2 ^ (w.bits - 1) then some (-(valueFrom 0 ds : Int)) else none
    else
      if valueFrom 0 ds < 2 ^ (w.bits - 1) then some (valueFrom 0 ds : Int) else none
  else none

/-- The integer a text denotes: an optional sign `+` or `-`, then one or more
decimal digits, the whole within the range of Go's `int`. -/
def intLiteral (w : IntSize) (s : String) : Option Int :=
  match s.data with
  | [] => none
  | c :: cs => litValue w (decide (c = '-')) (if c = '+' ∨ c = '-' then cs else c :: cs)

/-- A result of `Atoi` agrees with the number a text denotes. -/
def Agrees (o : Option Int) (r : Int × Option NumError) : Prop :=
  (∀ v, o = some v → r = (v, none)) ∧ (o = none → r.2 ≠ none)

/-- The declarative reading of `^https://github\.com/([^/]+)/([^/]+)/issues/(\d+)`:
the text starts with `https://github.com/`, a non-empty owner without `/`, a `/`,
a non-empty name without `/`, `/issues/` and at least one digit. -/
def MatchesIssueURL (arg : String) : Prop :=
  ∃ o r d rest : List Char,
    arg.data = "https://github.com/".data ++ o ++ '/' :: r ++ "/issues/".data ++ d ++ rest ∧
    o ≠ [] ∧ (∀ c ∈ o, c ≠ '/') ∧ r ≠ [] ∧ (∀ c ∈ r, c ≠ '/') ∧
    d ≠ [] ∧ (∀ c ∈ d, isDigit c = true)

/-- A transport that answers every fetch with an issue of the number asked for. -/
def sampleFetch : Repo → Int → Except GoError Issue :=
  fun repo n =>
    .ok ⟨n, "crash", "https://github.com/" ++ repo.RepoOwner ++ "/" ++ repo.RepoName, "", ⟨[], 0⟩⟩

/-- The interactive prompt. -/
def Call.isPrompt : Call → Bool
  | .titleBodySurvey _ _ _ => true
  | _ => false

/-- The create mutation. -/
def Call.isCreate : Call → Bool
  | .IssueCreate _ _ _ => true
  | _ => false

/-- The run of `issueCreate` is not in web mode, and the repository `repo` fetched
for `baseRepo` has issues enabled. -/
def IssuesEnabled (env : CreateEnv) (baseRepo : Repo) (repo : Repository) : Prop :=
  env.BaseRepo = .ok baseRepo ∧ env.web ≠ .ok true ∧ env.apiClientForContext = .ok () ∧
  env.GitHubRepo baseRepo = .ok repo ∧ repo.HasIssuesEnabled = true

/-- The run of `issueCreate` is not in web mode, the repository `repo` fetched for
`baseRepo` has issues enabled, and the flags read as `title` and `body`. -/
def ReachesFlags (env : CreateEnv) (baseRepo : Repo) (repo : Repository)
    (title body : String) : Prop :=
  env.BaseRepo = .ok baseRepo ∧ env.web ≠ .ok true ∧ env.apiClientForContext = .ok () ∧
  env.GitHubRepo baseRepo = .ok repo ∧ repo.HasIssuesEnabled = true ∧
  GetString env.title = .ok title ∧ GetString env.body = .ok body

/-- The URL `issueCreate` opens for a preview. -/
def previewURL (baseRepo : Repo) (title body : String) : String :=
  "https://github.com/" ++ baseRepo.RepoOwner ++ "/" ++ baseRepo.RepoName
    ++ "/issues/new/?title=" ++ QueryEscape title ++ "&body=" ++ QueryEscape body

/-- A runtime with 64-bit `int` and every code point above Latin-1 printable. -/
def sampleRuntime : GoRuntime := ⟨.w64, fun _ => true⟩

/-- An environment for `issueCreate`: title given by flag, body asked for, the
prompt answers with a preview. -/
def sampleCreateEnv : CreateEnv where
  BaseRepo := .ok ⟨"acme", "widgets"⟩
  ToplevelDir := .ok "/src/widgets"
  Find := fun _ _ => []
  web := .ok false
  apiClientForContext := .ok ()
  GitHubRepo := fun r => .ok ⟨r, true⟩
  title := .ok (some "crash on start")
  body := .ok none
  titleBodySurvey := fun t _ _ => .ok ⟨t, "a&b", .PreviewAction⟩
  parseRest := fun _ => .error ⟨"a URL outside the part of net/url that is modelled"⟩
  OpenInBrowser := fun _ => none
  IssueCreate := fun _ _ _ =>
    .ok ⟨1, "", "https://github.com/acme/widgets/issues/1", "", ⟨[], 0⟩⟩

/-- The environment `sampleCreateEnv` with title and body both given by flag. -/
def flagsCreateEnv : CreateEnv :=
  { sampleCreateEnv with body := .ok (some "it crashes") }

/-- The environment `sampleCreateEnv` with both flags given, the title as the
empty string. -/
def emptyTitleEnv : CreateEnv :=
  { sampleCreateEnv with title := .ok (some ""), body := .ok (some "it crashes") }

/-- An issue with no label node returned and a total count of one. -/
def unlabelledIssue : Issue :=
  ⟨7, "crash", "https://github.com/acme/widgets/issues/7", "", ⟨[], 1⟩⟩

/-- An issue with two label nodes returned out of three. -/
def labelledIssue : Issue :=
  ⟨7, "crash", "https://github.com/acme/widgets/issues/7", "", ⟨[⟨"bug"⟩, ⟨"p1"⟩], 3⟩⟩

/-- The calls `issueCreate` has made when it reads the flags. -/
def flagsLog (baseRepo : Repo) : List Call :=
  [Call.Print .colorableErr
    ("\nCreating issue in " ++ baseRepo.RepoOwner ++ "/" ++ baseRepo.RepoName ++ "\n\n"),
   Call.GitHubRepo baseRepo]

/-! ## General lemmas -/

/-- Filtering a list none of whose elements passes the test. -/
theorem filter_none {α : Type} (p : α → Bool) (l : List α) (h : ∀ c ∈ l, p c = false) :
    l.filter p = [] := by
  simp only [List.filter_eq_nil_iff]
  intro c hc
  simp [h c hc]

/-- Filtering a list all of whose elements pass the test. -/
theorem filter_all {α : Type} (p : α → Bool) (l : List α) (h : ∀ c ∈ l, p c = true) :
    l.filter p = l := by
  simp only [List.filter_eq_self]
  exact h

/-! ## `strconv.Atoi` and the URL pattern, characterised -/

/-- The bytes of a string are the bytes of its code points. -/
theorem bytes_eq (s : String) : bytes s = bytesOf s.data := rfl

/-- The bytes of a text start with the bytes of its first code point. -/
theorem bytesOf_cons (c : Char) (cs : List Char) :
    bytesOf (c :: cs) = utf8Bytes c ++ bytesOf cs := by
  simp [bytesOf]

/-- An ASCII code point is one byte, itself. -/
theorem utf8Bytes_ascii (c : Char) (h : c.toNat < 128) : utf8Bytes c = [c.toNat] := by
  simp [utf8Bytes, h]

/-- A code point outside ASCII starts with a byte of 128 or more. -/
theorem utf8Bytes_high (c : Char) (h : 128 ≤ c.toNat) :
    ∃ b rest, utf8Bytes c = b :: rest ∧ 128 ≤ b := by
  unfold utf8Bytes
  simp only
  split_ifs with h1 h2
  · omega
  · exact ⟨_, _, rfl, by omega⟩
  · exact ⟨_, _, rfl, by omega⟩
  · exact ⟨_, _, rfl, by omega⟩

/-- Every code point takes at least one byte. -/
theorem utf8Bytes_length_pos (c : Char) : 1 ≤ (utf8Bytes c).length := by
  unfold utf8Bytes
  simp only
  split_ifs <;> simp

/-- A text has at most as many code points as bytes. -/
theorem length_le_bytesOf (cs : List Char) : cs.length ≤ (bytesOf cs).length := by
  induction cs with
  | nil => simp [bytesOf]
  | cons c cs ih =>
    rw [bytesOf_cons, List.length_append, List.length_cons]
    have := utf8Bytes_length_pos c
    omega

/-- The class of digits in terms of code points. -/
theorem isDigit_iff (c : Char) : isDigit c = true ↔ 48 ≤ c.toNat ∧ c.toNat ≤ 57 := by
  simp [isDigit]

/-- A character is determined by its code point. -/
theorem char_eq_of_toNat (c d : Char) (h : c.toNat = d.toNat) : c = d := by
  rw [← Char.ofNat_toNat c, ← Char.ofNat_toNat d, h]

/-- The value of the empty string of digits. -/
theorem valueFrom_nil (n : Nat) : valueFrom n [] = n := rfl

/-- The value of a string of digits, one digit at a time. -/
theorem valueFrom_cons (n : Nat) (c : Char) (cs : List Char) :
    valueFrom n (c :: cs) = valueFrom (n * 10 + (c.toNat - 48)) cs := rfl

/-- Reading more digits never decreases the value. -/
theorem le_valueFrom (cs : List Char) (n : Nat) : n ≤ valueFrom n cs := by
  induction cs generalizing n with
  | nil => exact le_refl _
  | cons c cs ih =>
    rw [valueFrom_cons]
    have := ih (n * 10 + (c.toNat - 48))
    omega

/-- The value read is monotone in the value read before. -/
theorem valueFrom_mono (cs : List Char) (m n : Nat) (h : m ≤ n) :
    valueFrom m cs ≤ valueFrom n cs := by
  induction cs generalizing m n with
  | nil => exact h
  | cons c cs ih =>
    rw [valueFrom_cons, valueFrom_cons]
    apply ih
    omega

/-- A string of `k` digits read after `n` stays below `(n + 1) * 10 ^ k`. -/
theorem valueFrom_lt (cs : List Char) (n : Nat) (h : ∀ c ∈ cs, isDigit c = true) :
    valueFrom n cs + 1 ≤ (n + 1) * 10 ^ cs.length := by
  induction cs generalizing n with
  | nil => simp [valueFrom]
  | cons c cs ih =>
    rw [valueFrom_cons, List.length_cons]
    have hc := (isDigit_iff c).1 (h c (List.mem_cons_self _ _))
    have := ih (n * 10 + (c.toNat - 48)) (fun d hd => h d (List.mem_cons_of_mem _ hd))
    have h3 : n * 10 + (c.toNat - 48) + 1 ≤ (n + 1) * 10 := by omega
    have h2 : (n * 10 + (c.toNat - 48) + 1) * 10 ^ cs.length ≤ (n + 1) * 10 ^ (cs.length + 1) :=
      calc (n * 10 + (c.toNat - 48) + 1) * 10 ^ cs.length
          ≤ ((n + 1) * 10) * 10 ^ cs.length := Nat.mul_le_mul_right _ h3
        _ = (n + 1) * 10 ^ (cs.length + 1) := by ring
    omega

/-- The test of digits, one character at a time. -/
theorem allDigits_cons (c : Char) (cs : List Char) :
    allDigits (c :: cs) = (isDigit c && allDigits cs) := rfl

/-- A code point is below `0x110000`. -/
theorem char_toNat_lt (c : Char) : c.toNat < 1114112 := by
  have h := c.valid
  unfold Char.toNat
  rcases h with h | ⟨_, h⟩
  · have : c.val.toNat < 55296 := h
    omega
  · exact h

/-- A character that is not a digit starts with a byte that is not a digit. -/
theorem utf8Bytes_not_digit (c : Char) (h : isDigit c = false) :
    ∃ b rest, utf8Bytes c = b :: rest ∧ ¬ (48 ≤ b ∧ b ≤ 57) ∧ b < 256 := by
  by_cases hc : c.toNat < 128
  · refine ⟨c.toNat, [], utf8Bytes_ascii c hc, ?_, by omega⟩
    intro hd
    have := (isDigit_iff c).2 hd
    rw [h] at this
    exact Bool.noConfusion this
  · have hv := char_toNat_lt c
    unfold utf8Bytes
    simp only
    split_ifs with h1 h2
    · exact ⟨_, _, rfl, by omega, by omega⟩
    · exact ⟨_, _, rfl, by omega, by omega⟩
    · exact ⟨_, _, rfl, by omega, by omega⟩

/-- A digit is one byte, its code point. -/
theorem utf8Bytes_digit (c : Char) (h : isDigit c = true) : utf8Bytes c = [c.toNat] :=
  utf8Bytes_ascii c (by have := (isDigit_iff c).1 h; omega)

/-- Conversion to `int` leaves a number within the range of `int` unchanged. -/
theorem wrapInt_id (w : IntSize) (x : Int) (h0 : -(2 ^ (w.bits - 1) : Int) ≤ x)
    (h1 : x < 2 ^ (w.bits - 1)) : wrapInt w x = x := by
  unfold wrapInt
  cases w
  · simp only [IntSize.bits] at *
    norm_num at *
    omega
  · simp only [IntSize.bits] at *
    norm_num at *
    omega

/-- The fast loop on the bytes of a text, as long as the value stays within `int`. -/
theorem atoiFastLoop_eq (w : IntSize) (cs : List Char) (n : Nat)
    (h : (n + 1) * 10 ^ cs.length ≤ 2 ^ (w.bits - 1)) :
    atoiFastLoop w (bytesOf cs) (n : Int) =
      if allDigits cs then some ((valueFrom n cs : Nat) : Int) else none := by
  induction cs generalizing n with
  | nil => simp [bytesOf, atoiFastLoop, allDigits, valueFrom]
  | cons c cs ih =>
    rw [bytesOf_cons, allDigits_cons]
    cases hd : isDigit c with
    | false =>
      obtain ⟨b, rest, e, hb, hb2⟩ := utf8Bytes_not_digit c hd
      rw [e]
      have : (b + 256 - 48) % 256 > 9 := by omega
      simp only [List.cons_append, atoiFastLoop, Bool.false_and, Bool.false_eq_true, if_false,
        this, if_true]
    | true =>
      have hc := (isDigit_iff c).1 hd
      rw [utf8Bytes_digit c hd]
      show atoiFastLoop w (c.toNat :: bytesOf cs) n = _
      simp only [atoiFastLoop, Bool.true_and]
      have e1 : (c.toNat + 256 - 48) % 256 = c.toNat - 48 := by omega
      rw [e1]
      have e2 : ¬ (c.toNat - 48 > 9) := by omega
      simp only [e2, if_false]
      rw [List.length_cons] at h
      have h3 : n * 10 + (c.toNat - 48) + 1 ≤ (n + 1) * 10 := by omega
      have h4 : (n * 10 + (c.toNat - 48) + 1) * 10 ^ cs.length ≤ 2 ^ (w.bits - 1) :=
        calc (n * 10 + (c.toNat - 48) + 1) * 10 ^ cs.length
            ≤ ((n + 1) * 10) * 10 ^ cs.length := Nat.mul_le_mul_right _ h3
          _ = (n + 1) * 10 ^ (cs.length + 1) := by ring
          _ ≤ 2 ^ (w.bits - 1) := h
      have h5 : n * 10 + (c.toNat - 48) + 1 ≤ 2 ^ (w.bits - 1) :=
        le_trans (Nat.le_mul_of_pos_right _ (pow_pos (by norm_num) _)) h4
      have e3 : wrapInt w ((n : Int) * 10 + ((c.toNat - 48 : Nat) : Int))
          = ((n * 10 + (c.toNat - 48) : Nat) : Int) := by
        rw [wrapInt_id]
        · push_cast; ring
        · have : (0 : Int) ≤ (2 : Int) ^ (w.bits - 1) := by positivity
          have : (0 : Int) ≤ (n : Int) * 10 + ((c.toNat - 48 : Nat) : Int) := by positivity
          omega
        · have : ((n * 10 + (c.toNat - 48) + 1 : Nat) : Int) ≤ ((2 ^ (w.bits - 1) : Nat) : Int) :=
            Int.ofNat_le.2 h5
          push_cast at this ⊢
          omega
      rw [e3, ih _ h4, valueFrom_cons]

/-- The loop of `ParseUint` at the end of the text. -/
theorem parseUintLoop_nil (maxVal n : Nat) : parseUintLoop maxVal [] n = (n, none) := rfl

/-- One step of the loop of `ParseUint`, with the constants evaluated. -/
theorem parseUintLoop_cons (maxVal c : Nat) (cs : List Nat) (n : Nat) :
    parseUintLoop maxVal (c :: cs) n =
      if 48 ≤ c ∧ c ≤ 57 then
        if n ≥ 1844674407370955162 then (maxVal, some .ErrRange)
        else if (n * 10 % 18446744073709551616 + (c - 48)) % 18446744073709551616
              < n * 10 % 18446744073709551616
            ∨ (n * 10 % 18446744073709551616 + (c - 48)) % 18446744073709551616 > maxVal then
          (maxVal, some .ErrRange)
        else parseUintLoop maxVal cs
          ((n * 10 % 18446744073709551616 + (c - 48)) % 18446744073709551616)
      else (0, some .ErrSyntax) := by
  rw [parseUintLoop]
  norm_num

/-- The loop of `ParseUint` on the bytes of a text: the value when the text is
all digits and fits, a range error when it is all digits and does not fit, an
error otherwise. -/
theorem parseUintLoop_eq (maxVal : Nat) (hm : maxVal < 18446744073709551616) (cs : List Char)
    (n : Nat) (hn : n ≤ maxVal) :
    (allDigits cs = true → parseUintLoop maxVal (bytesOf cs) n =
      if valueFrom n cs ≤ maxVal then (valueFrom n cs, none) else (maxVal, some .ErrRange)) ∧
    (allDigits cs = false →
      parseUintLoop maxVal (bytesOf cs) n = (0, some .ErrSyntax) ∨
      parseUintLoop maxVal (bytesOf cs) n = (maxVal, some .ErrRange)) := by
  induction cs generalizing n with
  | nil =>
    refine ⟨fun _ => ?_, fun h => ?_⟩
    · simp [bytesOf, parseUintLoop_nil, valueFrom_nil, hn]
    · simp [allDigits] at h
  | cons c cs ih =>
    rw [bytesOf_cons, allDigits_cons]
    cases hd : isDigit c with
    | false =>
      obtain ⟨b, rest, e, hb, _⟩ := utf8Bytes_not_digit c hd
      rw [e, List.cons_append, parseUintLoop_cons]
      simp [hb]
    | true =>
      have hc := (isDigit_iff c).1 hd
      rw [utf8Bytes_digit c hd]
      show (_ → parseUintLoop maxVal (c.toNat :: bytesOf cs) n = _) ∧
        (_ → parseUintLoop maxVal (c.toNat :: bytesOf cs) n = _ ∨
          parseUintLoop maxVal (c.toNat :: bytesOf cs) n = _)
      rw [parseUintLoop_cons, valueFrom_cons]
      simp only [hc, and_self, if_true, Bool.true_and]
      have hge := le_valueFrom cs (n * 10 + (c.toNat - 48))
      by_cases h1 : n ≥ 1844674407370955162
      · simp only [h1, if_true]
        refine ⟨fun _ => ?_, fun _ => Or.inr trivial⟩
        have : ¬ valueFrom (n * 10 + (c.toNat - 48)) cs ≤ maxVal := by omega
        simp [this]
      · simp only [h1, if_false]
        by_cases h2 : (n * 10 % 18446744073709551616 + (c.toNat - 48)) % 18446744073709551616
              < n * 10 % 18446744073709551616
            ∨ (n * 10 % 18446744073709551616 + (c.toNat - 48)) % 18446744073709551616 > maxVal
        · simp only [h2, if_true]
          refine ⟨fun _ => ?_, fun _ => Or.inr trivial⟩
          have : ¬ valueFrom (n * 10 + (c.toNat - 48)) cs ≤ maxVal := by omega
          simp [this]
        · simp only [h2, if_false]
          have e : (n * 10 % 18446744073709551616 + (c.toNat - 48)) % 18446744073709551616
              = n * 10 + (c.toNat - 48) := by omega
          rw [e]
          exact ih (n * 10 + (c.toNat - 48)) (by omega)

/-- Only the empty text has no bytes. -/
theorem bytesOf_eq_nil (ds : List Char) : bytesOf ds = [] ↔ ds = [] := by
  constructor
  · intro h
    have := length_le_bytesOf ds
    rw [h] at this
    exact List.length_eq_zero.mp (by simpa using this)
  · rintro rfl
    rfl

/-- The fast path of `Atoi` after the sign. -/
theorem fast_agrees (w : IntSize) (neg : Bool) (ds : List Char)
    (hlen : 10 ^ ds.length ≤ 2 ^ (w.bits - 1)) :
    Agrees (litValue w neg ds)
      (if (bytesOf ds).length < 1 then (0, some .ErrSyntax)
        else
          match atoiFastLoop w (bytesOf ds) 0 with
          | none => (0, some .ErrSyntax)
          | some n => if neg = true then (wrapInt w (-n), none) else (n, none)) := by
  have hloop := atoiFastLoop_eq w ds 0 (by simpa using hlen)
  rw [Nat.cast_zero] at hloop
  by_cases hnil : ds = []
  · subst hnil
    simp [Agrees, litValue, bytesOf]
  · have hb : ¬ (bytesOf ds).length < 1 := by
      have : bytesOf ds ≠ [] := fun h => hnil ((bytesOf_eq_nil ds).1 h)
      have := List.length_pos.2 this
      omega
    rw [if_neg hb, hloop]
    cases hd : allDigits ds with
    | false => simp [Agrees, litValue, hd]
    | true =>
      have hv := valueFrom_lt ds 0 (by simpa [allDigits] using hd)
      have hv' : valueFrom 0 ds < 2 ^ (w.bits - 1) := by omega
      cases neg with
      | false =>
        simp [Agrees, litValue, hd, hnil, hv']
      | true =>
        have hw : wrapInt w (-((valueFrom 0 ds : Nat) : Int)) = -((valueFrom 0 ds : Nat) : Int) := by
          apply wrapInt_id
          · have : ((valueFrom 0 ds : Nat) : Int) < ((2 ^ (w.bits - 1) : Nat) : Int) :=
              Int.ofNat_lt.2 hv'
            push_cast at this
            omega
          · have : (0 : Int) < (2 : Int) ^ (w.bits - 1) := by positivity
            have : (0 : Int) ≤ ((valueFrom 0 ds : Nat) : Int) := by positivity
            omega
        simp [Agrees, litValue, hd, hnil, le_of_lt hv', hw]

/-- The bounds of `uint64` and of `int` against each other. -/
theorem pow_bits (w : IntSize) : 2 ^ w.bits - 1 < 18446744073709551616 ∧
    2 ^ (w.bits - 1) ≤ 2 ^ w.bits - 1 := by
  cases w <;> simp [IntSize.bits]

/-- The slow path of `Atoi` after the sign. -/
theorem slow_agrees (w : IntSize) (neg : Bool) (ds : List Char) :
    Agrees (litValue w neg ds)
      (if (ParseUint w (bytesOf ds)).2 = some .ErrSyntax then (0, some .ErrSyntax)
        else if neg = false ∧ (ParseUint w (bytesOf ds)).1 ≥ 2 ^ (w.bits - 1) then
          (((2 ^ (w.bits - 1) - 1 : Nat) : Int), some .ErrRange)
        else if neg = true ∧ (ParseUint w (bytesOf ds)).1 > 2 ^ (w.bits - 1) then
          (-((2 ^ (w.bits - 1) : Nat) : Int), some .ErrRange)
        else if neg = true then (-(((ParseUint w (bytesOf ds)).1 : Nat) : Int), none)
        else ((((ParseUint w (bytesOf ds)).1 : Nat) : Int), none)) := by
  obtain ⟨hm, hcut⟩ := pow_bits w
  by_cases hnil : ds = []
  · subst hnil
    simp [Agrees, litValue, bytesOf, ParseUint]
  · have hb : bytesOf ds ≠ [] := fun h => hnil ((bytesOf_eq_nil ds).1 h)
    have hP : ParseUint w (bytesOf ds) = parseUintLoop (2 ^ w.bits - 1) (bytesOf ds) 0 := by
      simp [ParseUint, hb]
    rw [hP]
    obtain ⟨h1, h2⟩ := parseUintLoop_eq (2 ^ w.bits - 1) hm ds 0 (Nat.zero_le _)
    cases hd : allDigits ds with
    | false =>
      rcases h2 hd with e | e
      · rw [e]
        simp [Agrees, litValue, hd]
      · rw [e]
        have hlit : litValue w neg ds = none := by simp [litValue, hd]
        rw [hlit]
        refine ⟨fun v hv => by simp at hv, fun _ => ?_⟩
        cases neg with
        | false =>
          have : 2 ^ w.bits - 1 ≥ 2 ^ (w.bits - 1) := hcut
          simp [this]
        | true =>
          have : 2 ^ w.bits - 1 > 2 ^ (w.bits - 1) := by
            cases w <;> simp [IntSize.bits]
          simp [this]
    | true =>
      rw [h1 hd]
      by_cases hfit : valueFrom 0 ds ≤ 2 ^ w.bits - 1
      · rw [if_pos hfit]
        cases neg with
        | false =>
          by_cases hr : valueFrom 0 ds < 2 ^ (w.bits - 1)
          · simp [Agrees, litValue, hd, hnil, hr, not_le.2 hr]
          · simp [Agrees, litValue, hd, hnil, hr, not_lt.1 hr]
        | true =>
          by_cases hr : valueFrom 0 ds ≤ 2 ^ (w.bits - 1)
          · simp [Agrees, litValue, hd, hnil, hr, not_lt.2 hr]
          · simp [Agrees, litValue, hd, hnil, hr, not_le.1 hr]
      · rw [if_neg hfit]
        have h3 : ¬ valueFrom 0 ds ≤ 2 ^ (w.bits - 1) := by omega
        have h4 : ¬ valueFrom 0 ds < 2 ^ (w.bits - 1) := by omega
        have hlit : litValue w neg ds = none := by
          cases neg <;> simp [litValue, hd, hnil, h3, h4]
        rw [hlit]
        refine ⟨fun v hv => by simp at hv, fun _ => ?_⟩
        cases neg with
        | false =>
          have : 2 ^ w.bits - 1 ≥ 2 ^ (w.bits - 1) := hcut
          simp [this]
        | true =>
          have : 2 ^ w.bits - 1 > 2 ^ (w.bits - 1) := by
            cases w <;> simp [IntSize.bits]
          simp [this]

/-- The first byte of a text tells whether its first character is a sign, and
after a sign come the bytes of the rest. -/
theorem sign_split (c : Char) (cs : List Char) :
    ∃ b0 rest0, bytesOf (c :: cs) = b0 :: rest0 ∧ (b0 = 45 ↔ c = '-') ∧ (b0 = 43 ↔ c = '+') ∧
      ((c = '+' ∨ c = '-') → rest0 = bytesOf cs) := by
  rw [bytesOf_cons]
  by_cases hc : c.toNat < 128
  · rw [utf8Bytes_ascii c hc]
    refine ⟨c.toNat, bytesOf cs, rfl, ?_, ?_, fun _ => rfl⟩
    · exact ⟨fun h => char_eq_of_toNat c '-' h, fun h => by rw [h]; rfl⟩
    · exact ⟨fun h => char_eq_of_toNat c '+' h, fun h => by rw [h]; rfl⟩
  · obtain ⟨b, rest, e, hb⟩ := utf8Bytes_high c (by omega)
    rw [e]
    have h1 : c ≠ '-' := by
      rintro rfl
      exact hc (by decide)
    have h2 : c ≠ '+' := by
      rintro rfl
      exact hc (by decide)
    refine ⟨b, rest ++ bytesOf cs, rfl, ?_, ?_, ?_⟩
    · exact ⟨fun h => by omega, fun h => absurd h h1⟩
    · exact ⟨fun h => by omega, fun h => absurd h h2⟩
    · rintro (h | h)
      · exact absurd h h2
      · exact absurd h h1

/-- The function `strconv.Atoi` accepts exactly the texts that denote an integer within the range
of `int`, and returns the integer denoted. -/
theorem Atoi_agrees (w : IntSize) (s : String) : Agrees (intLiteral w s) (Atoi w s) := by
  unfold Atoi intLiteral
  rw [bytes_eq]
  cases hs : s.data with
  | nil => simp [bytesOf, ParseInt, Agrees]
  | cons c cs =>
    obtain ⟨b0, rest0, hb, h45, h43, hrest⟩ := sign_split c cs
    have hds : (if b0 = 45 ∨ b0 = 43 then rest0 else b0 :: rest0)
        = bytesOf (if c = '+' ∨ c = '-' then cs else c :: cs) := by
      by_cases hsign : c = '+' ∨ c = '-'
      · have : b0 = 45 ∨ b0 = 43 := by
          rcases hsign with h | h
          · exact Or.inr (h43.2 h)
          · exact Or.inl (h45.2 h)
        rw [if_pos this, if_pos hsign, hrest hsign]
      · have : ¬ (b0 = 45 ∨ b0 = 43) := by
          rintro (h | h)
          · exact hsign (Or.inr (h45.1 h))
          · exact hsign (Or.inl (h43.1 h))
        rw [if_neg this, if_neg hsign, hb]
    have hds' : (if b0 = 43 then rest0 else if b0 = 45 then rest0 else b0 :: rest0)
        = bytesOf (if c = '+' ∨ c = '-' then cs else c :: cs) := by
      rw [← hds]
      by_cases a : b0 = 43 <;> by_cases b : b0 = 45 <;> simp [a, b]
    have hneg : decide (b0 = 45) = decide (c = '-') := by
      simp only [h45]
    simp only [hb]
    by_cases hfast : 0 < (b0 :: rest0).length ∧
        (b0 :: rest0).length < (match w with | .w32 => 10 | .w64 => 19)
    · rw [if_pos hfast, hds]
      have hlen : 10 ^ (if c = '+' ∨ c = '-' then cs else c :: cs).length
          ≤ 2 ^ (w.bits - 1) := by
        have h1 := length_le_bytesOf (if c = '+' ∨ c = '-' then cs else c :: cs)
        rw [← hds] at h1
        have h2 : (if b0 = 45 ∨ b0 = 43 then rest0 else b0 :: rest0).length
            ≤ (b0 :: rest0).length := by
          split <;> simp
        have h3 := hfast.2
        cases w with
        | w32 =>
          calc 10 ^ _ ≤ 10 ^ 9 := Nat.pow_le_pow_right (by norm_num) (by simp only at h3; omega)
            _ ≤ 2 ^ (IntSize.bits .w32 - 1) := by simp [IntSize.bits]
        | w64 =>
          calc 10 ^ _ ≤ 10 ^ 18 := Nat.pow_le_pow_right (by norm_num) (by simp only at h3; omega)
            _ ≤ 2 ^ (IntSize.bits .w64 - 1) := by simp [IntSize.bits]
      have := fast_agrees w (decide (c = '-')) _ hlen
      simp only [decide_eq_true_eq] at this
      simp only [h45]
      exact this
    · rw [if_neg hfast]
      unfold ParseInt
      simp only [hds', hneg]
      have := slow_agrees w (decide (c = '-')) (if c = '+' ∨ c = '-' then cs else c :: cs)
      exact this

/-- The function `stripPrefix` succeeds exactly on a text that starts with the prefix. -/
theorem stripPrefix_eq_some (p s r : List Char) : stripPrefix p s = some r ↔ s = p ++ r := by
  induction p generalizing s with
  | nil => simp [stripPrefix, eq_comm]
  | cons a p ih =>
    cases s with
    | nil => simp [stripPrefix]
    | cons c cs =>
      simp only [stripPrefix, List.cons_append, List.cons.injEq]
      by_cases h : a = c
      · simp [h, ih]
      · simp [h, eq_comm]

/-- The function `stripPrefix` removes a prefix that is there. -/
theorem stripPrefix_append (p r : List Char) : stripPrefix p (p ++ r) = some r :=
  (stripPrefix_eq_some p (p ++ r) r).2 rfl

/-- The class `[^/]` in terms of equality. -/
theorem notSlash_iff (c : Char) : notSlash c = true ↔ c ≠ '/' := by
  simp [notSlash]

/-- Splitting at the first `/`: the run before it and what follows it. -/
theorem takeWhile_notSlash (o rest : List Char) (h : ∀ c ∈ o, c ≠ '/') :
    (o ++ '/' :: rest).takeWhile notSlash = o ∧
    (o ++ '/' :: rest).dropWhile notSlash = '/' :: rest := by
  induction o with
  | nil => simp [notSlash]
  | cons a o ih =>
    have ha : notSlash a = true := (notSlash_iff a).2 (h a (List.mem_cons_self _ _))
    have := ih (fun c hc => h c (List.mem_cons_of_mem _ hc))
    simp [List.takeWhile_cons, List.dropWhile_cons, ha, this.1, this.2]

/-- A text that starts with a non-empty string of digits has a non-empty longest
run of digits. -/
theorem takeWhile_isDigit_ne_nil (d rest : List Char) (hd : d ≠ [])
    (h : ∀ c ∈ d, isDigit c = true) : (d ++ rest).takeWhile isDigit ≠ [] := by
  cases d with
  | nil => exact absurd rfl hd
  | cons a d =>
    have ha : isDigit a = true := h a (List.mem_cons_self _ _)
    simp [List.takeWhile_cons, ha]

/-- A text whose first `/` is followed by `r` is the run before that `/`, the
`/`, and `r`. -/
theorem dropWhile_notSlash_head (l r : List Char)
    (h : stripPrefix ['/'] (l.dropWhile notSlash) = some r) :
    l = l.takeWhile notSlash ++ '/' :: r := by
  have := (stripPrefix_eq_some _ _ _).1 h
  conv_lhs => rw [← List.takeWhile_append_dropWhile notSlash l, this]
  rfl

/-- The matcher finds a match exactly for the texts the pattern describes. -/
theorem FindStringSubmatch_isSome (arg : String) :
    (FindStringSubmatch arg).isSome = true ↔ MatchesIssueURL arg := by
  constructor
  · intro h
    unfold FindStringSubmatch at h
    cases h1 : stripPrefix "https://github.com/".data arg.data with
    | none => simp [h1] at h
    | some r1 =>
      simp only [h1] at h
      by_cases g1 : r1.takeWhile notSlash = []
      · simp [g1] at h
      · simp only [g1, if_false] at h
        cases h2 : stripPrefix ['/'] (r1.dropWhile notSlash) with
        | none => simp [h2] at h
        | some r2 =>
          simp only [h2] at h
          by_cases g2 : r2.takeWhile notSlash = []
          · simp [g2] at h
          · simp only [g2, if_false] at h
            cases h3 : stripPrefix "/issues/".data (r2.dropWhile notSlash) with
            | none => simp [h3] at h
            | some r3 =>
              simp only [h3] at h
              by_cases g3 : r3.takeWhile isDigit = []
              · simp [g3] at h
              · refine ⟨r1.takeWhile notSlash, r2.takeWhile notSlash, r3.takeWhile isDigit,
                  r3.dropWhile isDigit, ?_, g1, ?_, g2, ?_, g3, ?_⟩
                · have e1 := (stripPrefix_eq_some _ _ _).1 h1
                  have e2 := dropWhile_notSlash_head r1 r2 h2
                  have e3 := (stripPrefix_eq_some _ _ _).1 h3
                  have e4 := (List.takeWhile_append_dropWhile notSlash r2).symm
                  have e5 := (List.takeWhile_append_dropWhile isDigit r3).symm
                  rw [e3] at e4
                  rw [e1]
                  conv_lhs => rw [e2, e4, e5]
                  simp [List.append_assoc]
                · intro c hc
                  exact (notSlash_iff c).1 (List.mem_takeWhile_imp hc)
                · intro c hc
                  exact (notSlash_iff c).1 (List.mem_takeWhile_imp hc)
                · intro c hc
                  exact List.mem_takeWhile_imp hc
  · rintro ⟨o, r, d, rest, e, ho, hos, hr, hrs, hd, hds⟩
    unfold FindStringSubmatch
    have e' : arg.data = "https://github.com/".data
        ++ (o ++ '/' :: (r ++ '/' :: ("issues/".data ++ (d ++ rest)))) := by
      rw [e]
      simp [List.append_assoc]
    rw [e', stripPrefix_append]
    have t1 := takeWhile_notSlash o (r ++ '/' :: ("issues/".data ++ (d ++ rest))) hos
    have t2 := takeWhile_notSlash r ("issues/".data ++ (d ++ rest)) hrs
    simp only [t1.1, t1.2, ho, if_false]
    have s1 : stripPrefix ['/'] ('/' :: (r ++ '/' :: ("issues/".data ++ (d ++ rest))))
        = some (r ++ '/' :: ("issues/".data ++ (d ++ rest))) :=
      stripPrefix_append ['/'] _
    simp only [s1, t2.1, t2.2, hr, if_false]
    have s2 : stripPrefix "/issues/".data ('/' :: ("issues/".data ++ (d ++ rest)))
        = some (d ++ rest) :=
      stripPrefix_append "/issues/".data (d ++ rest)
    simp only [s2, takeWhile_isDigit_ne_nil d rest hd hds, if_false]
    rfl

/-! ## `url.Parse` on the preview URL -/

/-- Characters with different code points differ. -/
theorem ne_of_toNat_ne (c d : Char) (h : c.toNat ≠ d.toNat) : c ≠ d := by
  rintro rfl
  exact h rfl

/-- A digit of `upperhex` is `0`-`9` or `A`-`F`. -/
theorem upperhex_toNat (n : Nat) :
    (48 ≤ (upperhex n).toNat ∧ (upperhex n).toNat ≤ 57) ∨
      (65 ≤ (upperhex n).toNat ∧ (upperhex n).toNat ≤ 70) := by
  have h : n % 16 < 16 := Nat.mod_lt _ (by norm_num)
  unfold upperhex
  generalize n % 16 = k at h
  interval_cases k <;> decide

/-- An ASCII code point is the code point of its character. -/
theorem ofNat_toNat_small (c : Nat) (h : c < 128) : (Char.ofNat c).toNat = c := by
  interval_cases c <;> rfl

/-- The characters `url.QueryEscape` produces: `+`, `%`, digits, letters, `-`, `_`,
`.` and `~`. -/
theorem QueryEscape_chars (s : String) : ∀ c ∈ (QueryEscape s).data,
    c.toNat = 43 ∨ c.toNat = 37 ∨ (48 ≤ c.toNat ∧ c.toNat ≤ 57) ∨
      (65 ≤ c.toNat ∧ c.toNat ≤ 90) ∨ (97 ≤ c.toNat ∧ c.toNat ≤ 122) ∨
      c.toNat = 45 ∨ c.toNat = 95 ∨ c.toNat = 46 ∨ c.toNat = 126 := by
  intro c hc
  simp only [QueryEscape, List.mem_flatMap] at hc
  obtain ⟨b, _, hb⟩ := hc
  by_cases h32 : b = 32
  · simp only [h32, if_true, List.mem_singleton] at hb
    subst hb
    decide
  · simp only [h32, if_false] at hb
    cases he : shouldEscape b with
    | true =>
      simp only [he, if_true, List.mem_cons, List.mem_singleton, List.not_mem_nil,
        or_false] at hb
      rcases hb with rfl | rfl | rfl
      · decide
      · have := upperhex_toNat (b / 16)
        omega
      · have := upperhex_toNat b
        omega
    | false =>
      simp only [he, Bool.false_eq_true, if_false, List.mem_singleton] at hb
      subst hb
      have hr : (97 ≤ b ∧ b ≤ 122) ∨ (65 ≤ b ∧ b ≤ 90) ∨ (48 ≤ b ∧ b ≤ 57) ∨
          b = 45 ∨ b = 95 ∨ b = 46 ∨ b = 126 := by
        unfold shouldEscape at he
        by_cases h1 : (97 ≤ b ∧ b ≤ 122) ∨ (65 ≤ b ∧ b ≤ 90) ∨ (48 ≤ b ∧ b ≤ 57)
        · rcases h1 with h | h | h
          · exact Or.inl h
          · exact Or.inr (Or.inl h)
          · exact Or.inr (Or.inr (Or.inl h))
        · by_cases h2 : b = 45 ∨ b = 95 ∨ b = 46 ∨ b = 126
          · exact Or.inr (Or.inr (Or.inr h2))
          · simp [h1, h2] at he
      rw [ofNat_toNat_small b (by omega)]
      omega

/-- The text `url.QueryEscape` produces holds neither `&` nor `=`: in a query it is
one value. -/
theorem QueryEscape_no_separator (s : String) :
    '&' ∉ (QueryEscape s).data ∧ '=' ∉ (QueryEscape s).data := by
  constructor
  · intro hc
    have := QueryEscape_chars s _ hc
    revert this
    decide
  · intro hc
    have := QueryEscape_chars s _ hc
    revert this
    decide

/-- In a run that is not in web mode the test of the flag `web` fails. -/
theorem web_off (env : CreateEnv) (hW : env.web ≠ .ok true) {α : Type} (a b : α) :
    (match env.web with | .ok true => a | _ => b) = b := by
  cases hw : env.web with
  | error e => rfl
  | ok v =>
    cases v with
    | false => rfl
    | true => exact absurd hw hW

/-- The run of `issueCreate` when title and body are both given by flag: no prompt,
the create mutation, then the URL of the new issue. -/
theorem issueCreate_flags (rt : GoRuntime) (env : CreateEnv) (baseRepo : Repo)
    (repo : Repository) (title body : String)
    (h : ReachesFlags env baseRepo repo title body) (ht : title ≠ "") (hb : body ≠ "") :
    issueCreate rt env =
      match env.IssueCreate repo title body with
      | .error err => (flagsLog baseRepo ++ [Call.IssueCreate repo title body], .error err)
      | .ok newIssue =>
        (flagsLog baseRepo ++ [Call.IssueCreate repo title body,
          Call.Print .OutOrStdout (newIssue.URL ++ "\n")], .ok) := by
  obtain ⟨hB, hW, hA, hG, hI, hT, hBo⟩ := h
  unfold issueCreate
  simp only [hB, web_off env hW, hA, hG, hI, hT, hBo]
  cases hc : env.IssueCreate repo title body <;> simp [ht, hb, flagsLog, hc]

/-- The run of `issueCreate` when the title or the body is missing and the prompt
returns a draft: the branch is chosen by the action of the draft. -/
theorem issueCreate_prompt (rt : GoRuntime) (env : CreateEnv) (baseRepo : Repo)
    (repo : Repository) (title body : String) (tb : TitleBody)
    (h : ReachesFlags env baseRepo repo title body) (hi : title = "" ∨ body = "")
    (hs : env.titleBodySurvey title body (templateFiles env) = .ok tb) :
    issueCreate rt env =
      match tb.Action with
      | .CancelAction =>
        (flagsLog baseRepo ++ [Call.titleBodySurvey title body (templateFiles env),
          Call.Print .ErrOrStderr "Discarding.\n"], .ok)
      | .PreviewAction =>
        match urlParse rt env.parseRest (previewURL baseRepo
            (if title = "" then tb.Title else title) (if body = "" then tb.Body else body)) with
        | .error err =>
          (flagsLog baseRepo ++ [Call.titleBodySurvey title body (templateFiles env)], .error err)
        | .ok url =>
          (flagsLog baseRepo ++ [Call.titleBodySurvey title body (templateFiles env),
            Call.Print .ErrOrStderr ("Opening " ++ url.Host ++ url.Path ++ " in your browser.\n"),
            Call.OpenInBrowser (previewURL baseRepo
              (if title = "" then tb.Title else title) (if body = "" then tb.Body else body))],
            Outcome.ofError (env.OpenInBrowser (previewURL baseRepo
              (if title = "" then tb.Title else title) (if body = "" then tb.Body else body))))
      | .SubmitAction =>
        match env.IssueCreate repo
            (if title = "" then tb.Title else title) (if body = "" then tb.Body else body) with
        | .error err =>
          (flagsLog baseRepo ++ [Call.titleBodySurvey title body (templateFiles env),
            Call.IssueCreate repo
              (if title = "" then tb.Title else title) (if body = "" then tb.Body else body)],
            .error err)
        | .ok newIssue =>
          (flagsLog baseRepo ++ [Call.titleBodySurvey title body (templateFiles env),
            Call.IssueCreate repo
              (if title = "" then tb.Title else title) (if body = "" then tb.Body else body),
            Call.Print .OutOrStdout (newIssue.URL ++ "\n")], .ok)
      | .other _ =>
        (flagsLog baseRepo ++ [Call.titleBodySurvey title body (templateFiles env)],
          .panic "Unreachable state") := by
  obtain ⟨hB, hW, hA, hG, hI, hT, hBo⟩ := h
  have hi' : (title == "" || body == "") = true := by
    rcases hi with h | h <;> simp [h]
  unfold issueCreate
  simp only [hB, web_off env hW, hA, hG, hI, hT, hBo, hi', hs]
  cases hact : tb.Action with
  | CancelAction => simp [flagsLog]
  | PreviewAction =>
    simp only [beq_iff_eq, previewURL]
    cases hu : urlParse rt env.parseRest _ <;> simp [flagsLog, hu]
  | SubmitAction =>
    simp only [beq_iff_eq]
    cases hc : env.IssueCreate repo _ _ <;> simp [flagsLog, hc]
  | other v => simp [flagsLog]

/-- The prompt is invoked exactly when the title or the body read by `GetString` is
empty; when neither is, the create mutation is invoked once with the two. -/
theorem prompt_iff_empty (rt : GoRuntime) (env : CreateEnv) (baseRepo : Repo)
    (repo : Repository) (title body : String)
    (h : ReachesFlags env baseRepo repo title body) :
    ((∃ c ∈ (issueCreate rt env).1, c.isPrompt = true) ↔ (title = "" ∨ body = "")) ∧
    (title ≠ "" → body ≠ "" →
      (issueCreate rt env).1.filter Call.isPrompt = [] ∧
      (issueCreate rt env).1.filter Call.isCreate = [Call.IssueCreate repo title body]) := by
  have hlog : ∀ c ∈ flagsLog baseRepo, c.isPrompt = false ∧ c.isCreate = false := by
    intro c hc
    simp only [flagsLog, List.mem_cons, List.mem_singleton, List.not_mem_nil, or_false] at hc
    rcases hc with rfl | rfl <;> exact ⟨rfl, rfl⟩
  have hflags : title ≠ "" → body ≠ "" →
      (issueCreate rt env).1.filter Call.isPrompt = [] ∧
      (issueCreate rt env).1.filter Call.isCreate = [Call.IssueCreate repo title body] := by
    intro ht hb
    rw [issueCreate_flags rt env baseRepo repo title body h ht hb]
    have h1 := filter_none Call.isPrompt _ (fun c hc => (hlog c hc).1)
    have h2 := filter_none Call.isCreate _ (fun c hc => (hlog c hc).2)
    cases env.IssueCreate repo title body <;>
      simp [List.filter_append, h1, h2, Call.isPrompt, Call.isCreate]
  refine ⟨⟨fun hex => ?_, fun hi => ?_⟩, hflags⟩
  · by_contra hn
    push_neg at hn
    obtain ⟨c, hc, hp⟩ := hex
    have := (hflags hn.1 hn.2).1
    rw [List.filter_eq_nil_iff] at this
    exact this c hc hp
  · refine ⟨Call.titleBodySurvey title body (templateFiles env), ?_, rfl⟩
    cases hs : env.titleBodySurvey title body (templateFiles env) with
    | error err =>
      obtain ⟨hB, hW, hA, hG, hI, hT, hBo⟩ := h
      have hi' : (title == "" || body == "") = true := by
        rcases hi with h | h <;> simp [h]
      unfold issueCreate
      simp [hB, web_off env hW, hA, hG, hI, hT, hBo, hi', hs]
    | ok tb =>
      rw [issueCreate_prompt rt env baseRepo repo title body tb h hi hs]
      cases tb.Action with
      | CancelAction => simp
      | PreviewAction => dsimp only; split <;> simp
      | SubmitAction => dsimp only; split <;> simp
      | other v => simp

/-- What `GetString` reads for a flag that can be looked up. -/
theorem GetString_ok (flag : Except GoError (Option String)) (t : Option String)
    (h : flag = .ok t) : GetString flag = .ok (t.getD "") := by
  subst h
  cases t <;> rfl

/-- C10, as amended. In `issueCreate`, not in web mode and with issues enabled,
the interactive prompt is invoked if and only if the title or the body read from
the flags is empty, which is the case when the flag is not supplied and also when
it is supplied as the empty string; in particular, when both title and body are
supplied via flags as non-empty strings the prompt is not invoked and the create
mutation is invoked exactly once, with exactly the title and body of the flags. -/
theorem issueCreate_interactive (rt : GoRuntime) (env : CreateEnv) (baseRepo : Repo)
    (repo : Repository) (t b : Option String)
    (h : IssuesEnabled env baseRepo repo) (ht : env.title = .ok t) (hb : env.body = .ok b) :
    ((∃ c ∈ (issueCreate rt env).1, c.isPrompt = true) ↔
      (t = none ∨ t = some "" ∨ b = none ∨ b = some "")) ∧
    (∀ title body, t = some title → b = some body → title ≠ "" → body ≠ "" →
      (issueCreate rt env).1.filter Call.isPrompt = [] ∧
      (issueCreate rt env).1.filter Call.isCreate = [Call.IssueCreate repo title body]) := by
  obtain ⟨hB, hW, hA, hG, hI⟩ := h
  have hr : ReachesFlags env baseRepo repo (t.getD "") (b.getD "") :=
    ⟨hB, hW, hA, hG, hI, GetString_ok _ _ ht, GetString_ok _ _ hb⟩
  have key := prompt_iff_empty rt env baseRepo repo (t.getD "") (b.getD "") hr
  have hempty : ∀ o : Option String, o.getD "" = "" ↔ (o = none ∨ o = some "") := by
    intro o
    cases o <;> simp
  refine ⟨?_, fun title body e1 e2 h1 h2 => ?_⟩
  · rw [key.1, hempty t, hempty b]
    constructor
    · rintro ((h | h) | (h | h))
      · exact Or.inl h
      · exact Or.inr (Or.inl h)
      · exact Or.inr (Or.inr (Or.inl h))
      · exact Or.inr (Or.inr (Or.inr h))
    · rintro (h | h | h | h)
      · exact Or.inl (Or.inl h)
      · exact Or.inl (Or.inr h)
      · exact Or.inr (Or.inl h)
      · exact Or.inr (Or.inr h)
  · subst e1 e2
    exact key.2 h1 h2

/-- The claim C10 as amended, on a run: title and body given by flag and not empty,
one create mutation, no prompt. -/
theorem issueCreate_interactive_witness :
    (issueCreate sampleRuntime flagsCreateEnv).1.filter Call.isPrompt = [] ∧
      (issueCreate sampleRuntime flagsCreateEnv).1.filter Call.isCreate
        = [Call.IssueCreate ⟨⟨"acme", "widgets"⟩, true⟩ "crash on start" "it crashes"] :=
  (issueCreate_interactive sampleRuntime flagsCreateEnv ⟨"acme", "widgets"⟩
    ⟨⟨"acme", "widgets"⟩, true⟩ (some "crash on start") (some "it crashes")
    ⟨rfl, by simp [flagsCreateEnv, sampleCreateEnv], rfl, rfl, rfl⟩ rfl rfl).2
    "crash on start" "it crashes" rfl rfl (by decide) (by decide)

/-- C10, as stated, fails: with the title supplied as the empty string and the
body supplied as `it crashes`, both are supplied via flags (not in web mode,
issues enabled), and the interactive prompt is invoked, once. -/
theorem supplied_empty_title_prompts :
    IssuesEnabled emptyTitleEnv ⟨"acme", "widgets"⟩ ⟨⟨"acme", "widgets"⟩, true⟩ ∧
      emptyTitleEnv.title = .ok (some "") ∧ emptyTitleEnv.body = .ok (some "it crashes") ∧
      (issueCreate sampleRuntime emptyTitleEnv).1.filter Call.isPrompt
        = [Call.titleBodySurvey "" "it crashes" []] := by
  refine ⟨⟨rfl, by simp [emptyTitleEnv, sampleCreateEnv], rfl, rfl, rfl⟩, rfl, rfl, ?_⟩
  decide

/-- C9, as amended. When at least one label node was returned and the total
count exceeds the number of returned nodes, `labelList` is the label names in
order joined by `, `, followed by `, …`, so it contains the marker; when no node
was returned the result is the empty string whatever the total count; when the
total count does not exceed the number of returned nodes the result is exactly
the names joined by `, `. -/
theorem labelList_marker (issue : Issue) :
    (issue.Labels.Nodes ≠ [] → issue.Labels.TotalCount > (issue.Labels.Nodes.length : Int) →
      labelList issue = ", ".intercalate (issue.Labels.Nodes.map (fun l => l.Name)) ++ ", …" ∧
      '…' ∈ (labelList issue).data) ∧
    (issue.Labels.Nodes = [] → labelList issue = "") ∧
    (issue.Labels.TotalCount ≤ (issue.Labels.Nodes.length : Int) →
      labelList issue = ", ".intercalate (issue.Labels.Nodes.map (fun l => l.Name))) := by
  refine ⟨fun hne hgt => ?_, fun hnil => ?_, fun hle => ?_⟩
  · have hlen : ¬ issue.Labels.Nodes.length = 0 := by
      simpa [List.length_eq_zero] using hne
    have e : labelList issue
        = ", ".intercalate (issue.Labels.Nodes.map (fun l => l.Name)) ++ ", …" := by
      simp [labelList, hlen, hgt]
    refine ⟨e, ?_⟩
    rw [e]
    simp [String.data_append]
  · simp [labelList, hnil]
  · by_cases hlen : issue.Labels.Nodes.length = 0
    · have hnil : issue.Labels.Nodes = [] := List.length_eq_zero.mp hlen
      simp [labelList, hnil, String.intercalate]
    · simp [labelList, hlen, not_lt.mpr hle]

/-- The claim C9 as amended, on an issue with two of three labels returned. -/
theorem labelList_marker_witness :
    labelList labelledIssue = "bug, p1, …" ∧ '…' ∈ (labelList labelledIssue).data :=
  (labelList_marker labelledIssue).1 (by decide) (by decide)

/-- C9, as stated, fails: with no label node returned and a total count of one
the total exceeds the number of nodes, and `labelList` is the empty string,
without the marker. -/
theorem labelList_empty_no_marker :
    unlabelledIssue.Labels.TotalCount > (unlabelledIssue.Labels.Nodes.length : Int) ∧
      labelList unlabelledIssue = "" ∧ '…' ∉ (labelList unlabelledIssue).data := by
  decide

/-- The numeric branch of `issueFromArg`: a text that denotes an integer is
fetched by that number from the ambient repository. -/
theorem issueFromArg_of_literal (rt : GoRuntime)
    (IssueByNumber : Repo → Int → Except GoError Issue) (baseRepo : Repo) (arg : String)
    (v : Int) (h : intLiteral rt.intSize arg = some v) :
    issueFromArg rt IssueByNumber baseRepo arg
      = ([Call.IssueByNumber baseRepo v], IssueByNumber baseRepo v) := by
  have := (Atoi_agrees rt.intSize arg).1 v h
  simp [issueFromArg, this]

/-- The URL branch of `issueFromArg`: the number matched is fetched from the
ambient repository. -/
theorem issueFromArg_of_match (rt : GoRuntime)
    (IssueByNumber : Repo → Int → Except GoError Issue) (baseRepo : Repo) (arg : String)
    (m : Submatch) (h : intLiteral rt.intSize arg = none) (hm : FindStringSubmatch arg = some m) :
    issueFromArg rt IssueByNumber baseRepo arg
      = ([Call.IssueByNumber baseRepo (Atoi rt.intSize m.m3).1],
          IssueByNumber baseRepo (Atoi rt.intSize m.m3).1) := by
  have := (Atoi_agrees rt.intSize arg).2 h
  simp [issueFromArg, this, hm]

/-- The last branch of `issueFromArg`: no fetch, and the error with the quoted text. -/
theorem issueFromArg_of_no_match (rt : GoRuntime)
    (IssueByNumber : Repo → Int → Except GoError Issue) (baseRepo : Repo) (arg : String)
    (h : intLiteral rt.intSize arg = none) (hm : FindStringSubmatch arg = none) :
    issueFromArg rt IssueByNumber baseRepo arg
      = ([], .error ⟨"invalid issue format: " ++ Quote rt arg⟩) := by
  have := (Atoi_agrees rt.intSize arg).2 h
  simp [issueFromArg, this, hm]

/-- A text of printable characters other than the double quote and the backslash
is quoted as itself between double quotes. -/
theorem Quote_plain (rt : GoRuntime) (s : String)
    (h : ∀ c ∈ s.data, IsPrint rt c = true ∧ c ≠ '"' ∧ c ≠ '\\') :
    Quote rt s = "\"" ++ s ++ "\"" := by
  have e : ∀ l : List Char, (∀ c ∈ l, IsPrint rt c = true ∧ c ≠ '"' ∧ c ≠ '\\') →
      l.flatMap (appendEscapedRune rt) = l := by
    intro l hl
    induction l with
    | nil => rfl
    | cons a l ih =>
      have ha := hl a (List.mem_cons_self _ _)
      have : appendEscapedRune rt a = [a] := by
        simp [appendEscapedRune, ha.1, ha.2.1, ha.2.2]
      simp [List.flatMap_cons, this, ih (fun c hc => hl c (List.mem_cons_of_mem _ hc))]
  unfold Quote
  rw [e s.data h]
  apply String.ext
  simp [String.data_append]

/-- A text that starts with a sign does not match the URL pattern. -/
theorem FindStringSubmatch_signed (sign : Char) (ds : List Char)
    (hs : sign = '+' ∨ sign = '-') : FindStringSubmatch (String.mk (sign :: ds)) = none := by
  rcases hs with rfl | rfl <;> rfl

/-- C1: the code at the selector of scenario B. With the ambient repository
`other/repo`, the selector `https://github.com/acme/widgets/issues/42` matches
the URL pattern with owner `acme` and name `widgets`, and is fetched as number 42
of `other/repo`: the owner and the name matched in the URL are not used. -/
theorem issueFromArg_url_uses_ambient (rt : GoRuntime)
    (IssueByNumber : Repo → Int → Except GoError Issue) :
    FindStringSubmatch "https://github.com/acme/widgets/issues/42"
        = some ⟨"https://github.com/acme/widgets/issues/42", "acme", "widgets", "42"⟩ ∧
      issueFromArg rt IssueByNumber ⟨"other", "repo"⟩ "https://github.com/acme/widgets/issues/42"
        = ([Call.IssueByNumber ⟨"other", "repo"⟩ 42], IssueByNumber ⟨"other", "repo"⟩ 42) := by
  have hm : FindStringSubmatch "https://github.com/acme/widgets/issues/42"
      = some ⟨"https://github.com/acme/widgets/issues/42", "acme", "widgets", "42"⟩ := by rfl
  refine ⟨hm, ?_⟩
  have h1 : intLiteral rt.intSize "https://github.com/acme/widgets/issues/42" = none := by
    cases rt.intSize <;> rfl
  have h2 : intLiteral rt.intSize "42" = some 42 := by
    cases rt.intSize <;> rfl
  rw [issueFromArg_of_match rt IssueByNumber _ _ _ h1 hm]
  have := (Atoi_agrees rt.intSize "42").1 42 h2
  simp [this]

/-- A non-empty string of digits does not match the URL pattern, and `%q` quotes
it as itself. -/
theorem digits_no_match (rt : GoRuntime) (S : String) (hne : S.data ≠ [])
    (hd : ∀ c ∈ S.data, isDigit c = true) :
    FindStringSubmatch S = none ∧ Quote rt S = "\"" ++ S ++ "\"" := by
  constructor
  · unfold FindStringSubmatch
    cases hs : S.data with
    | nil => exact absurd hs hne
    | cons c cs =>
      have hc := (isDigit_iff c).1 (hd c (by rw [hs]; exact List.mem_cons_self _ _))
      have h1 : ¬ 'h' = c := by
        rintro rfl
        exact absurd hc (by decide)
      have : stripPrefix "https://github.com/".data (c :: cs) = none := by
        show stripPrefix ('h' :: "ttps://github.com/".data) (c :: cs) = none
        simp [stripPrefix, h1]
      simp [this]
  · apply Quote_plain
    intro c hc
    have h := (isDigit_iff c).1 (hd c hc)
    refine ⟨?_, ne_of_toNat_ne _ _ ?_, ne_of_toNat_ne _ _ ?_⟩
    · have h1 : c.toNat ≤ 255 := by omega
      have h2 : 32 ≤ c.toNat ∧ c.toNat ≤ 126 := by omega
      simp [IsPrint, h1, h2]
    · show c.toNat ≠ 34
      omega
    · show c.toNat ≠ 92
      omega

/-- C2, as amended. For every non-empty string `S` of decimal digits (leading
zeros allowed) and every repository: when the base-10 value of `S` fits Go's
`int`, that is, is below `2 ^ (bits - 1)`, `issueFromArg` makes exactly one
fetch, for that repository and the value of `S`, and returns what the fetch
returns, so neither the URL pattern nor the invalid-format error is reached;
when the value does not fit `int`, no fetch is made and `issueFromArg` returns
the invalid-format error that echoes `S`. -/
theorem issueFromArg_digits (rt : GoRuntime)
    (IssueByNumber : Repo → Int → Except GoError Issue) (baseRepo : Repo) (S : String)
    (hne : S.data ≠ []) (hd : ∀ c ∈ S.data, isDigit c = true) :
    (valueFrom 0 S.data < 2 ^ (rt.intSize.bits - 1) →
      issueFromArg rt IssueByNumber baseRepo S
        = ([Call.IssueByNumber baseRepo (valueFrom 0 S.data : Nat)],
            IssueByNumber baseRepo (valueFrom 0 S.data : Nat))) ∧
    (¬ valueFrom 0 S.data < 2 ^ (rt.intSize.bits - 1) →
      issueFromArg rt IssueByNumber baseRepo S
        = ([], .error ⟨"invalid issue format: " ++ ("\"" ++ S ++ "\"")⟩)) := by
  have hlit : intLiteral rt.intSize S
      = if valueFrom 0 S.data < 2 ^ (rt.intSize.bits - 1)
          then some ((valueFrom 0 S.data : Nat) : Int) else none := by
    unfold intLiteral
    cases hs : S.data with
    | nil => exact absurd hs hne
    | cons c cs =>
      rw [hs] at hd
      have hc := (isDigit_iff c).1 (hd c (List.mem_cons_self _ _))
      have h1 : c ≠ '+' := by
        rintro rfl
        exact absurd hc (by decide)
      have h2 : c ≠ '-' := by
        rintro rfl
        exact absurd hc (by decide)
      have hall : allDigits (c :: cs) = true := by
        simpa [allDigits] using hd
      simp [h1, h2, litValue, hall]
  refine ⟨fun hfit => ?_, fun hover => ?_⟩
  · apply issueFromArg_of_literal
    rw [hlit, if_pos hfit]
  · have hm := digits_no_match rt S hne hd
    rw [issueFromArg_of_no_match rt IssueByNumber baseRepo S (by rw [hlit, if_neg hover]) hm.1,
      hm.2]

/-- The claim C2 as amended, on scenario A, the selector `42` in `acme/widgets`,
and on a selector of twenty digits. -/
theorem issueFromArg_digits_witness :
    issueFromArg sampleRuntime sampleFetch ⟨"acme", "widgets"⟩ "42"
        = ([Call.IssueByNumber ⟨"acme", "widgets"⟩ 42], sampleFetch ⟨"acme", "widgets"⟩ 42) ∧
      issueFromArg sampleRuntime sampleFetch ⟨"acme", "widgets"⟩ "10000000000000000000"
        = ([], .error ⟨"invalid issue format: \"10000000000000000000\""⟩) :=
  ⟨(issueFromArg_digits sampleRuntime sampleFetch ⟨"acme", "widgets"⟩ "42"
      (by decide) (by decide)).1 (by decide),
    (issueFromArg_digits sampleRuntime sampleFetch ⟨"acme", "widgets"⟩ "10000000000000000000"
      (by decide) (by decide)).2 (by decide)⟩

/-- C2, as stated, fails: `9223372036854775808` is a non-empty string of decimal
digits, and with a 64-bit `int` the selector is not fetched; `issueFromArg`
reaches the invalid-format error. -/
theorem overflow_selector_rejected :
    "9223372036854775808".data ≠ [] ∧
      (∀ c ∈ "9223372036854775808".data, isDigit c = true) ∧
      issueFromArg sampleRuntime sampleFetch ⟨"acme", "widgets"⟩ "9223372036854775808"
        = ([], .error ⟨"invalid issue format: \"9223372036854775808\""⟩) := by
  refine ⟨by decide, by decide, ?_⟩
  rw [issueFromArg_of_no_match sampleRuntime sampleFetch _ _ (by rfl) (by rfl)]
  rfl

/-- C4, as amended. `issueFromArg` treats as a number every selector that
`strconv.Atoi` accepts, signed ones included. For a selector made of one sign
`+` or `-` and the rest `ds`: when `ds` is a non-empty string of decimal digits
whose value fits `int` (at most `2 ^ (bits - 1)` after `-`, below it after `+`),
exactly one fetch is made, for the ambient repository and the signed value;
otherwise no fetch is made and the selector, which cannot match the URL
pattern, ends in the invalid-format error. -/
theorem issueFromArg_signed (rt : GoRuntime)
    (IssueByNumber : Repo → Int → Except GoError Issue) (baseRepo : Repo)
    (sign : Char) (ds : List Char) (hs : sign = '+' ∨ sign = '-') :
    (ds ≠ [] → (∀ c ∈ ds, isDigit c = true) →
      (if sign = '-' then valueFrom 0 ds ≤ 2 ^ (rt.intSize.bits - 1)
        else valueFrom 0 ds < 2 ^ (rt.intSize.bits - 1)) →
      issueFromArg rt IssueByNumber baseRepo (String.mk (sign :: ds))
        = ([Call.IssueByNumber baseRepo
              (if sign = '-' then -(valueFrom 0 ds : Int) else (valueFrom 0 ds : Int))],
            IssueByNumber baseRepo
              (if sign = '-' then -(valueFrom 0 ds : Int) else (valueFrom 0 ds : Int)))) ∧
    (¬ (ds ≠ [] ∧ (∀ c ∈ ds, isDigit c = true) ∧
        (if sign = '-' then valueFrom 0 ds ≤ 2 ^ (rt.intSize.bits - 1)
          else valueFrom 0 ds < 2 ^ (rt.intSize.bits - 1))) →
      issueFromArg rt IssueByNumber baseRepo (String.mk (sign :: ds))
        = ([], .error ⟨"invalid issue format: " ++ Quote rt (String.mk (sign :: ds))⟩)) := by
  have hlit : intLiteral rt.intSize (String.mk (sign :: ds))
      = litValue rt.intSize (decide (sign = '-')) ds := by
    simp [intLiteral, hs]
  have hall : allDigits ds = true ↔ ∀ c ∈ ds, isDigit c = true := by
    simp [allDigits]
  refine ⟨fun hne hd hfit => ?_, fun hnot => ?_⟩
  · apply issueFromArg_of_literal
    rw [hlit]
    by_cases hm : sign = '-'
    · simp only [hm, if_true] at hfit ⊢
      simp [litValue, hne, hall.2 hd, hfit]
    · simp only [hm, if_false] at hfit ⊢
      simp [litValue, hne, hall.2 hd, hfit]
  · apply issueFromArg_of_no_match _ _ _ _ _ (FindStringSubmatch_signed sign ds hs)
    rw [hlit]
    unfold litValue
    by_cases h1 : ds ≠ [] ∧ allDigits ds = true
    · rw [if_pos h1]
      have hfit : ¬ (if sign = '-' then valueFrom 0 ds ≤ 2 ^ (rt.intSize.bits - 1)
          else valueFrom 0 ds < 2 ^ (rt.intSize.bits - 1)) :=
        fun hf => hnot ⟨h1.1, hall.1 h1.2, hf⟩
      by_cases hm : sign = '-'
      · simp only [hm, if_true] at hfit
        simp [hm, hfit]
      · simp only [hm, if_false] at hfit
        simp [hm, hfit]
    · rw [if_neg h1]

/-- The claim C4 as amended, on the selector `-5`: one fetch, of number `-5`. -/
theorem issueFromArg_signed_witness :
    issueFromArg sampleRuntime sampleFetch ⟨"acme", "widgets"⟩ "-5"
      = ([Call.IssueByNumber ⟨"acme", "widgets"⟩ (-5)], sampleFetch ⟨"acme", "widgets"⟩ (-5)) :=
  (issueFromArg_signed sampleRuntime sampleFetch ⟨"acme", "widgets"⟩ '-' "5".data
    (Or.inr rfl)).1 (by decide) (by decide) (by decide)

/-- C4, as stated, fails: the selectors `-5` and `+5` carry a sign, and each is
fetched by number from the numeric branch, as `-5` and as `5`. -/
theorem issueFromArg_sign_fetched :
    issueFromArg sampleRuntime sampleFetch ⟨"acme", "widgets"⟩ "-5"
        = ([Call.IssueByNumber ⟨"acme", "widgets"⟩ (-5)], sampleFetch ⟨"acme", "widgets"⟩ (-5)) ∧
      issueFromArg sampleRuntime sampleFetch ⟨"acme", "widgets"⟩ "+5"
        = ([Call.IssueByNumber ⟨"acme", "widgets"⟩ 5], sampleFetch ⟨"acme", "widgets"⟩ 5) :=
  ⟨issueFromArg_of_literal sampleRuntime sampleFetch _ "-5" (-5) (by rfl),
    issueFromArg_of_literal sampleRuntime sampleFetch _ "+5" 5 (by rfl)⟩

/-- C3, as amended. For every selector that `strconv.Atoi` does not accept (it is
not an optionally signed string of decimal digits within the range of `int`) and
that does not match the URL pattern, `issueFromArg` makes no fetch and returns
the error whose message is `invalid issue format: ` followed by the selector as
`%q` quotes it; when the selector is made of printable characters other than the
double quote and the backslash, that is the selector itself, verbatim, between
double quotes. -/
theorem issueFromArg_invalid (rt : GoRuntime)
    (IssueByNumber : Repo → Int → Except GoError Issue) (baseRepo : Repo) (arg : String)
    (hnum : intLiteral rt.intSize arg = none) (hurl : ¬ MatchesIssueURL arg) :
    issueFromArg rt IssueByNumber baseRepo arg
        = ([], .error ⟨"invalid issue format: " ++ Quote rt arg⟩) ∧
      ((∀ c ∈ arg.data, IsPrint rt c = true ∧ c ≠ '"' ∧ c ≠ '\\') →
        Quote rt arg = "\"" ++ arg ++ "\"") := by
  refine ⟨?_, Quote_plain rt arg⟩
  apply issueFromArg_of_no_match _ _ _ _ hnum
  cases hm : FindStringSubmatch arg with
  | none => rfl
  | some m =>
    exact absurd ((FindStringSubmatch_isSome arg).1 (by simp [hm])) hurl

/-- The claim C3 as amended, on scenario C: the selector `abc` is not fetched and
is echoed verbatim. -/
theorem issueFromArg_invalid_witness :
    issueFromArg sampleRuntime sampleFetch ⟨"acme", "widgets"⟩ "abc"
        = ([], .error ⟨"invalid issue format: \"abc\""⟩) ∧
      Quote sampleRuntime "abc" = "\"abc\"" :=
  ⟨(issueFromArg_invalid sampleRuntime sampleFetch ⟨"acme", "widgets"⟩ "abc" (by rfl)
      (fun h => absurd ((FindStringSubmatch_isSome "abc").2 h) (by decide))).1,
    (issueFromArg_invalid sampleRuntime sampleFetch ⟨"acme", "widgets"⟩ "abc" (by rfl)
      (fun h => absurd ((FindStringSubmatch_isSome "abc").2 h) (by decide))).2 (by decide)⟩

/-- C3, as stated, fails twice. The selector `-7` is neither a string of digits
nor a match of the URL pattern, and it is fetched, as number `-7`. The selector
`a"b` is neither, and the message of its error is `invalid issue format: "a\"b"`:
the double quote inside the selector is escaped, not reproduced verbatim. -/
theorem quoted_selector_escaped :
    (¬ (∀ c ∈ "-7".data, isDigit c = true) ∧ FindStringSubmatch "-7" = none ∧
      issueFromArg sampleRuntime sampleFetch ⟨"acme", "widgets"⟩ "-7"
        = ([Call.IssueByNumber ⟨"acme", "widgets"⟩ (-7)],
            sampleFetch ⟨"acme", "widgets"⟩ (-7))) ∧
    (¬ (∀ c ∈ "a\"b".data, isDigit c = true) ∧ FindStringSubmatch "a\"b" = none ∧
      issueFromArg sampleRuntime sampleFetch ⟨"acme", "widgets"⟩ "a\"b"
        = ([], .error ⟨"invalid issue format: \"a\\\"b\""⟩) ∧
      "invalid issue format: \"a\\\"b\"" ≠ "invalid issue format: \"" ++ "a\"b" ++ "\"") := by
  refine ⟨⟨by decide, by rfl, ?_⟩, by decide, by rfl, ?_, by decide⟩
  · exact issueFromArg_of_literal sampleRuntime sampleFetch _ "-7" (-7) (by rfl)
  · rw [issueFromArg_of_no_match sampleRuntime sampleFetch _ _ (by rfl) (by rfl)]
    rfl

/-- Every fetch made by `issueFromArg` is for the ambient repository. -/
theorem issueFromArg_fetch_ambient (rt : GoRuntime)
    (IssueByNumber : Repo → Int → Except GoError Issue) (baseRepo : Repo) (arg : String) :
    ∀ c ∈ (issueFromArg rt IssueByNumber baseRepo arg).1,
      ∃ n, c = Call.IssueByNumber baseRepo n := by
  intro c hc
  unfold issueFromArg at hc
  by_cases ha : (Atoi rt.intSize arg).2 = none
  · simp only [ha, if_true, List.mem_singleton] at hc
    exact ⟨_, hc⟩
  · cases hm : FindStringSubmatch arg with
    | none => simp [ha, hm] at hc
    | some m =>
      simp only [ha, hm, if_false, List.mem_singleton] at hc
      exact ⟨_, hc⟩

namespace Close

/-! ### Properties of `closeRun` and `apiClose` -/

/-- The shape of a run of `closeRun` that reached the resolver: the calls made are
a prefix without mutation, deletion or output, then the call of the resolver,
then what the rest of the function does with the record. -/
theorem closeRun_resolved (env : CloseEnv) (opts : CloseOptions) (issue : Issue) (repo : Repo)
    (h : ResolvedTo env opts issue repo) :
    ∃ pre : List Call,
      (∀ c ∈ pre, c.isMutation = false ∧ c.isDeletion = false ∧ c.isErrOut = false) ∧
      closeRun env opts =
        if issue.State = "CLOSED" then (pre ++ [alreadyClosedNotice env issue], none)
        else
          match (apiClose env repo issue).2 with
          | some err => (pre ++ (apiClose env repo issue).1, some err)
          | none =>
            match env.DeleteByNumber repo false issue.Number with
            | some err =>
              (pre ++ (apiClose env repo issue).1
                ++ [Call.DeleteByNumber repo false issue.Number], some err)
            | none =>
              (pre ++ (apiClose env repo issue).1
                ++ [Call.DeleteByNumber repo false issue.Number]
                ++ [Call.ErrOut (env.SuccessIconRed ++ " Closed issue #"
                  ++ toString issue.Number ++ " (" ++ issue.Title ++ ")\n")], none) := by
  obtain ⟨sel, fields, hmem, hres⟩ := h
  unfold closeRun at hmem ⊢
  cases hH : env.HttpClient with
  | error e => simp [hH] at hmem
  | ok _ =>
    cases hB : env.BaseRepo with
    | error e => simp [hH, hB] at hmem
    | ok base =>
      simp only [hH, hB] at hmem ⊢
      by_cases hU : opts.UseFrecency = true
      · simp only [hU, if_true] at hmem ⊢
        cases hG : env.GetFrecent base false with
        | error e => simp [hG] at hmem
        | ok issues =>
          cases hS : env.SelectIssueNumber issues with
          | error e => simp [hG, hS] at hmem
          | ok selected =>
            simp only [hG, hS] at hmem ⊢
            refine ⟨[Call.StartProgressIndicator, Call.GetFrecent base false,
              Call.StopProgressIndicator, Call.SelectIssueNumber issues,
              Call.IssueFromArgWithFields selected ["id", "number", "title", "state"]],
              by simp [Call.isMutation, Call.isDeletion, Call.isErrOut], ?_⟩
            have hsel : sel = selected ∧ fields = ["id", "number", "title", "state"] := by
              unfold apiClose at hmem
              revert hmem
              repeat' split
              all_goals simp
            rw [hsel.1, hsel.2] at hres
            simp [hres, alreadyClosedNotice]
      · simp only [hU, Bool.false_eq_true, ↓reduceIte] at hmem ⊢
        refine ⟨[Call.IssueFromArgWithFields opts.SelectorArg ["id", "number", "title", "state"]],
          by simp [Call.isMutation, Call.isDeletion, Call.isErrOut], ?_⟩
        have hsel : sel = opts.SelectorArg ∧ fields = ["id", "number", "title", "state"] := by
          unfold apiClose at hmem
          revert hmem
          repeat' split
          all_goals simp
        rw [hsel.1, hsel.2] at hres
        simp [hres, alreadyClosedNotice]

/-- C6. Whenever the record resolved by `closeRun` is in state `CLOSED`, the
command returns `nil`, the last thing it does is print the already-closed
notice, and it calls neither close mutation nor the deletion from the recency
store. Two invocations in succession that resolve the same closed record (the
first one changes nothing) therefore end alike: both succeed, both print the same
notice, neither mutates. -/
theorem closeRun_already_closed (env₁ env₂ : CloseEnv) (opts₁ opts₂ : CloseOptions)
    (issue : Issue) (repo₁ repo₂ : Repo)
    (h₁ : ResolvedTo env₁ opts₁ issue repo₁) (h₂ : ResolvedTo env₂ opts₂ issue repo₂)
    (hc : issue.State = "CLOSED") (hy : env₁.Yellow = env₂.Yellow) :
    ((closeRun env₁ opts₁).2 = none ∧
      (closeRun env₁ opts₁).1.getLast? = some (alreadyClosedNotice env₁ issue) ∧
      (closeRun env₁ opts₁).1.filter (fun c => c.isMutation || c.isDeletion) = []) ∧
    ((closeRun env₂ opts₂).2 = none ∧
      (closeRun env₂ opts₂).1.getLast? = some (alreadyClosedNotice env₁ issue) ∧
      (closeRun env₂ opts₂).1.filter (fun c => c.isMutation || c.isDeletion) = []) := by
  have one : ∀ (env : CloseEnv) (opts : CloseOptions) (repo : Repo),
      ResolvedTo env opts issue repo →
      (closeRun env opts).2 = none ∧
        (closeRun env opts).1.getLast? = some (alreadyClosedNotice env issue) ∧
        (closeRun env opts).1.filter (fun c => c.isMutation || c.isDeletion) = [] := by
    intro env opts repo h
    obtain ⟨pre, hpre, heq⟩ := closeRun_resolved env opts issue repo h
    rw [if_pos hc] at heq
    rw [heq]
    refine ⟨rfl, by simp, ?_⟩
    simp only [List.filter_append, List.append_eq_nil, List.filter_eq_nil_iff]
    refine ⟨fun c hcm => ?_, by simp [alreadyClosedNotice, Call.isMutation, Call.isDeletion]⟩
    have := hpre c hcm
    simp [this.1, this.2.1]
  have e : alreadyClosedNotice env₂ issue = alreadyClosedNotice env₁ issue := by
    simp [alreadyClosedNotice, hy]
  exact ⟨one env₁ opts₁ repo₁ h₁, e ▸ one env₂ opts₂ repo₂ h₂⟩

/-- The claim C6 on a run: the selector `7` resolves to a closed issue twice in a row. -/
theorem closeRun_already_closed_witness :
    ((closeRun closedEnv ⟨"7", false⟩).2 = none ∧
      (closeRun closedEnv ⟨"7", false⟩).1.getLast?
        = some (alreadyClosedNotice closedEnv ⟨"I_7", 7, "crash", "CLOSED", false⟩) ∧
      (closeRun closedEnv ⟨"7", false⟩).1.filter (fun c => c.isMutation || c.isDeletion) = []) ∧
    ((closeRun closedEnv ⟨"", true⟩).2 = none ∧
      (closeRun closedEnv ⟨"", true⟩).1.getLast?
        = some (alreadyClosedNotice closedEnv ⟨"I_7", 7, "crash", "CLOSED", false⟩) ∧
      (closeRun closedEnv ⟨"", true⟩).1.filter (fun c => c.isMutation || c.isDeletion) = []) :=
  closeRun_already_closed closedEnv closedEnv ⟨"7", false⟩ ⟨"", true⟩
    ⟨"I_7", 7, "crash", "CLOSED", false⟩ ⟨"acme", "widgets", "github.com"⟩
    ⟨"acme", "widgets", "github.com"⟩
    ⟨"7", ["id", "number", "title", "state"], by decide, rfl⟩
    ⟨"7", ["id", "number", "title", "state"], by decide, rfl⟩ rfl rfl

/-- The calls of `apiClose` are one mutation, chosen by the kind of the record. -/
theorem apiClose_calls (env : CloseEnv) (repo : Repo) (issue : Issue) :
    (apiClose env repo issue).1 =
      [if issue.IsPullRequest then Call.PullRequestClose repo issue.ID
        else Call.IssueClose repo.RepoHost issue.ID] := by
  unfold apiClose
  split <;> rfl

/-- The calls of `apiClose` are mutations, neither deletion nor output. -/
theorem apiClose_calls_kind (env : CloseEnv) (repo : Repo) (issue : Issue) :
    ∀ c ∈ (apiClose env repo issue).1,
      c.isMutation = true ∧ c.isDeletion = false ∧ c.isErrOut = false := by
  intro c hc
  rw [apiClose_calls] at hc
  simp only [List.mem_singleton] at hc
  subst hc
  split <;> simp [Call.isMutation, Call.isDeletion, Call.isErrOut]

/-- C7. For every record resolved by `closeRun` that is not `CLOSED`, exactly one
close mutation is invoked, by `apiClose`: for a pull request it is
`PullRequestClose` with the record's id (and `IssueClose` is not sent), otherwise
it is `IssueClose` with the record's id (and `PullRequestClose` is not called). -/
theorem apiClose_dispatch (env : CloseEnv) (opts : CloseOptions) (issue : Issue) (repo : Repo)
    (h : ResolvedTo env opts issue repo) (hc : issue.State ≠ "CLOSED") :
    (apiClose env repo issue).1 =
        [if issue.IsPullRequest then Call.PullRequestClose repo issue.ID
          else Call.IssueClose repo.RepoHost issue.ID] ∧
      (closeRun env opts).1.filter Call.isMutation =
        [if issue.IsPullRequest then Call.PullRequestClose repo issue.ID
          else Call.IssueClose repo.RepoHost issue.ID] := by
  refine ⟨apiClose_calls env repo issue, ?_⟩
  obtain ⟨pre, hpre, heq⟩ := closeRun_resolved env opts issue repo h
  rw [if_neg hc] at heq
  have hp : pre.filter Call.isMutation = [] := filter_none _ _ (fun c hm => (hpre c hm).1)
  have ha : (apiClose env repo issue).1.filter Call.isMutation = (apiClose env repo issue).1 :=
    filter_all _ _ (fun c hm => (apiClose_calls_kind env repo issue c hm).1)
  rw [heq, ← apiClose_calls env repo issue]
  split
  · simp [List.filter_append, hp, ha]
  · split <;> simp [List.filter_append, hp, ha, Call.isMutation]

/-- The claim C7 on a run: the open issue `7` is closed by the mutation `IssueClose`. -/
theorem apiClose_dispatch_witness :
    (apiClose sampleEnv ⟨"acme", "widgets", "github.com"⟩ ⟨"I_7", 7, "crash", "OPEN", false⟩).1 =
        [Call.IssueClose "github.com" "I_7"] ∧
      (closeRun sampleEnv ⟨"7", false⟩).1.filter Call.isMutation =
        [Call.IssueClose "github.com" "I_7"] :=
  apiClose_dispatch sampleEnv ⟨"7", false⟩ ⟨"I_7", 7, "crash", "OPEN", false⟩
    ⟨"acme", "widgets", "github.com"⟩
    ⟨"7", ["id", "number", "title", "state"], by decide, rfl⟩ (by decide)

/-- What `apiClose` returns is what the mutation it sends returns. -/
theorem apiClose_result (env : CloseEnv) (repo : Repo) (issue : Issue) :
    (apiClose env repo issue).2 =
      if issue.IsPullRequest then env.PullRequestClose repo issue.ID
      else env.IssueClose repo.RepoHost issue.ID := by
  unfold apiClose
  split <;> rfl

/-- C8. In `closeRun`, for a resolved record that is not `CLOSED`: when the close
mutation of the record's kind (`PullRequestClose` for a pull request, `IssueClose`
otherwise) returns an error, `closeRun` returns that error and the deletion from
the recency store is not attempted; when the mutation succeeds, the deletion is
attempted exactly once, for the resolved repository, kind issue (`isPR` false)
and the number of the record, and when it returns an error `closeRun` returns
that error and prints nothing. -/
theorem closeRun_sequential (env : CloseEnv) (opts : CloseOptions) (issue : Issue) (repo : Repo)
    (h : ResolvedTo env opts issue repo) (hc : issue.State ≠ "CLOSED") :
    (∀ err,
      (if issue.IsPullRequest then env.PullRequestClose repo issue.ID
        else env.IssueClose repo.RepoHost issue.ID) = some err →
      (closeRun env opts).2 = some err ∧
      (closeRun env opts).1.filter Call.isDeletion = []) ∧
    ((if issue.IsPullRequest then env.PullRequestClose repo issue.ID
        else env.IssueClose repo.RepoHost issue.ID) = none →
      (closeRun env opts).1.filter Call.isDeletion
        = [Call.DeleteByNumber repo false issue.Number] ∧
      ∀ err, env.DeleteByNumber repo false issue.Number = some err →
        (closeRun env opts).2 = some err ∧
        (closeRun env opts).1.filter Call.isErrOut = []) := by
  obtain ⟨pre, hpre, heq⟩ := closeRun_resolved env opts issue repo h
  rw [if_neg hc] at heq
  rw [← apiClose_result env repo issue]
  have hpd : pre.filter Call.isDeletion = [] := filter_none _ _ (fun c hm => (hpre c hm).2.1)
  have hpe : pre.filter Call.isErrOut = [] := filter_none _ _ (fun c hm => (hpre c hm).2.2)
  have had : (apiClose env repo issue).1.filter Call.isDeletion = [] :=
    filter_none _ _ (fun c hm => (apiClose_calls_kind env repo issue c hm).2.1)
  have hae : (apiClose env repo issue).1.filter Call.isErrOut = [] :=
    filter_none _ _ (fun c hm => (apiClose_calls_kind env repo issue c hm).2.2)
  refine ⟨fun err he => ?_, fun hn => ⟨?_, fun err he => ?_⟩⟩
  · rw [he] at heq
    simp only at heq
    rw [heq]
    simp [List.filter_append, hpd, had]
  · rw [hn] at heq
    simp only at heq
    rw [heq]
    split <;> simp [List.filter_append, hpd, had, Call.isDeletion]
  · rw [hn] at heq
    simp only [he] at heq
    rw [heq]
    simp [List.filter_append, hpe, hae, Call.isErrOut]

/-- The claim C8 on two runs. In the first the transport refuses the mutation:
`closeRun` returns that error and the recency store is not touched. In the second
the issue is closed and the recency store refuses the deletion: `closeRun`
returns that error without a confirmation. -/
theorem closeRun_sequential_witness :
    ((closeRun failingEnv ⟨"7", false⟩).2 = some ⟨"transport: connection refused"⟩ ∧
      (closeRun failingEnv ⟨"7", false⟩).1.filter Call.isDeletion = []) ∧
    ((closeRun staleEnv ⟨"7", false⟩).1.filter Call.isDeletion
        = [Call.DeleteByNumber ⟨"acme", "widgets", "github.com"⟩ false 7] ∧
      (closeRun staleEnv ⟨"7", false⟩).2 = some ⟨"recency store is read-only"⟩ ∧
      (closeRun staleEnv ⟨"7", false⟩).1.filter Call.isErrOut = []) :=
  ⟨(closeRun_sequential failingEnv ⟨"7", false⟩ ⟨"I_7", 7, "crash", "OPEN", false⟩
      ⟨"acme", "widgets", "github.com"⟩
      ⟨"7", ["id", "number", "title", "state"], by decide, rfl⟩ (by decide)).1
      ⟨"transport: connection refused"⟩ rfl,
    ((closeRun_sequential staleEnv ⟨"7", false⟩ ⟨"I_7", 7, "crash", "OPEN", false⟩
      ⟨"acme", "widgets", "github.com"⟩
      ⟨"7", ["id", "number", "title", "state"], by decide, rfl⟩ (by decide)).2 rfl).1,
    ((closeRun_sequential staleEnv ⟨"7", false⟩ ⟨"I_7", 7, "crash", "OPEN", false⟩
      ⟨"acme", "widgets", "github.com"⟩
      ⟨"7", ["id", "number", "title", "state"], by decide, rfl⟩ (by decide)).2 rfl).2
      ⟨"recency store is read-only"⟩ rfl⟩

end Close

end GhIssue

